import Mathlib

/-!
Verification development for `calculate_itr_values.py` (ITR foreign-asset
calculations).  The Python program is shallowly embedded:

* numeric values (floats in the source) are modelled as exact rationals `ℚ`;
  Python's `round(x, n)` (round-half-to-even) is modelled by `roundHalfEven`;
* pandas `Timestamp`s are modelled as integers counting minutes since an
  epoch (`ℤ`); `dt.normalize()` is flooring to a multiple of 1440 minutes;
  calendar dates are a `Date` structure, sent to timestamps by the standard
  civil-calendar day numbering (`toRataDie`);
* dataframes become lists of typed records; row iteration becomes list
  recursion; in-place dataframe mutation is modelled by a small store of
  dataframe values for the frame property of the FIFO matcher.
-/

/-! ### Rounding (Python `round(x, ndigits)`, round-half-to-even) -/

/-- Round a rational to the nearest integer, ties going to the even
integer, as Python's builtin `round` does. -/
def roundHalfEven (x : ℚ) : ℤ :=
  if x - ⌊x⌋ < 1/2 then ⌊x⌋
  else if 1/2 < x - ⌊x⌋ then ⌊x⌋ + 1
  else if ⌊x⌋ % 2 = 0 then ⌊x⌋ else ⌊x⌋ + 1

/-- `round(x, 2)` of the Python source. -/
def round2 (x : ℚ) : ℚ := (roundHalfEven (x * 100) : ℚ) / 100

/-- `round(x, 1)` of the Python source. -/
def round1 (x : ℚ) : ℚ := (roundHalfEven (x * 10) : ℚ) / 10

theorem roundHalfEven_ge_floor (x : ℚ) : ⌊x⌋ ≤ roundHalfEven x := by
  unfold roundHalfEven
  split_ifs <;> omega

theorem roundHalfEven_le_floor_add_one (x : ℚ) : roundHalfEven x ≤ ⌊x⌋ + 1 := by
  unfold roundHalfEven
  split_ifs <;> omega

theorem roundHalfEven_mono {x y : ℚ} (h : x ≤ y) :
    roundHalfEven x ≤ roundHalfEven y := by
  rcases lt_or_eq_of_le (Int.floor_le_floor h) with hlt | heq
  · calc roundHalfEven x ≤ ⌊x⌋ + 1 := roundHalfEven_le_floor_add_one x
      _ ≤ ⌊y⌋ := by omega
      _ ≤ roundHalfEven y := roundHalfEven_ge_floor y
  · unfold roundHalfEven
    rw [← heq]
    split_ifs <;> first | omega | (exfalso; linarith)

theorem round2_mono {x y : ℚ} (h : x ≤ y) : round2 x ≤ round2 y := by
  unfold round2
  have h100 : x * 100 ≤ y * 100 := by linarith
  have := roundHalfEven_mono h100
  have hc : (roundHalfEven (x * 100) : ℚ) ≤ (roundHalfEven (y * 100) : ℚ) :=
    Int.cast_le.2 this
  linarith

theorem round2_zero : round2 0 = 0 := by norm_num [round2, roundHalfEven]

/-! ### Calendar dates and `get_last_day_of_preceding_month` -/

/-- A calendar date (pandas `Timestamp` at midnight). -/
structure Date where
  year : ℤ
  month : ℕ
  day : ℕ
deriving DecidableEq, Repr

/-- Gregorian leap-year rule (as encoded in pandas calendar arithmetic). -/
def isLeapYear (y : ℤ) : Bool := (y % 4 == 0 && y % 100 != 0) || y % 400 == 0

/-- Number of days of month `m` of year `y` (Gregorian). -/
def daysInMonth (y : ℤ) (m : ℕ) : ℕ :=
  if m = 2 then (if isLeapYear y then 29 else 28)
  else if m = 4 ∨ m = 6 ∨ m = 9 ∨ m = 11 then 30
  else 31

/-- Subtracting `pd.Timedelta(days=1)` from a midnight timestamp: the
previous calendar day. -/
def predDay (d : Date) : Date :=
  if 1 < d.day then ⟨d.year, d.month, d.day - 1⟩
  else if 1 < d.month then ⟨d.year, d.month - 1, daysInMonth d.year (d.month - 1)⟩
  else ⟨d.year - 1, 12, 31⟩

/-- `get_last_day_of_preceding_month`: move to the first day of the current
month, then subtract one day (source lines 41-51). -/
def get_last_day_of_preceding_month (d : Date) : Date :=
  predDay ⟨d.year, d.month, 1⟩

/-- Strict chronological order on dates (lexicographic). -/
def dateLt (a b : Date) : Prop :=
  a.year < b.year ∨ (a.year = b.year ∧
    (a.month < b.month ∨ (a.month = b.month ∧ a.day < b.day)))

instance (a b : Date) : Decidable (dateLt a b) := by
  unfold dateLt; infer_instance

/-- Day number of a civil date (days since 1970-01-01, standard
civil-from-days algorithm); models the integer day count inside a pandas
`Timestamp`. -/
def toRataDie (dt : Date) : ℤ :=
  let y : ℤ := if dt.month ≤ 2 then dt.year - 1 else dt.year
  let m : ℤ := dt.month
  let d : ℤ := dt.day
  let era : ℤ := y / 400
  let yoe : ℤ := y - era * 400
  let mp : ℤ := (m + 9) % 12
  let doy : ℤ := (153 * mp + 2) / 5 + d - 1
  let doe : ℤ := yoe * 365 + yoe / 4 - yoe / 100 + doy
  era * 146097 + doe - 719468

/-- The minutes-since-epoch timestamp of a date at midnight. -/
def tsOfDate (d : Date) : ℤ := 1440 * toRataDie d

/-! ### Rate table and `get_exchange_rate` -/

/-- One row of the SBI rates table: `DATE` (minute resolution) and
`TT BUY`. -/
structure RateEntry where
  date : ℤ
  rate : ℚ
deriving DecidableEq, Repr

/-- `Timestamp.normalize()`: strip the time-of-day component (floor to
midnight). -/
def normalizeTs (t : ℤ) : ℤ := 1440 * (t / 1440)

/-- `get_exchange_rate(target_date, rates_df)` (source lines 53-82): filter
entries whose normalized date is on or before the normalized target, sort
descending by full date, and return the first entry with a positive rate. -/
def get_exchange_rate (target_date : ℤ) (rates_df : List RateEntry) :
    Option (ℚ × ℤ) :=
  let target_ts := normalizeTs target_date
  let available := rates_df.filter (fun e => decide (normalizeTs e.date ≤ target_ts))
  if available.isEmpty then none
  else
    match (available.mergeSort (fun a b => decide (b.date ≤ a.date))).find?
        (fun e => decide (0 < e.rate)) with
    | some e => some (e.rate, e.date)
    | none => none

/-! ### Valuation of sheet rows (dividends, ESPP/RSU buys and sales) -/

/-- A parsed input row of the `Dividend_FY` sheet (date already parsed;
rows with unparseable dates are skipped before this stage). -/
structure DivRow where
  date : Date
  value : ℚ
  tax : ℚ
deriving DecidableEq, Repr

/-- An output row of `process_dividend_sheet`; `none` in `rate` /
`rateDate` renders as the marker string N/A. -/
structure DivOut where
  txnDate : Date
  refDate : Date
  rateDate : Option ℤ
  rate : Option ℚ
  valueForeign : ℚ
  taxForeign : ℚ
  valueInr : ℚ
  taxInr : ℚ
deriving DecidableEq, Repr

/-- `process_dividend_sheet` (source lines 84-136): for each row, the rate
reference date is the last day of the month preceding the transaction date;
a missing rate yields 0 INR amounts and N/A markers.  Python's
`x * rate if rate else 0.0` truthiness test is modelled by the `rate = 0`
branch (the lookup in fact never returns a zero rate). -/
def process_dividend_sheet (df : List DivRow) (rates_df : List RateEntry) :
    List DivOut :=
  df.map fun row =>
    let ref_date := get_last_day_of_preceding_month row.date
    match get_exchange_rate (tsOfDate ref_date) rates_df with
    | some (rate, found_date) =>
      { txnDate := row.date, refDate := ref_date,
        rateDate := some found_date,
        rate := if rate = 0 then none else some rate,
        valueForeign := row.value, taxForeign := row.tax,
        valueInr := round2 (if rate = 0 then 0 else row.value * rate),
        taxInr := round2 (if rate = 0 then 0 else row.tax * rate) }
    | none =>
      { txnDate := row.date, refDate := ref_date,
        rateDate := none, rate := none,
        valueForeign := row.value, taxForeign := row.tax,
        valueInr := round2 0, taxInr := round2 0 }

/-- A parsed input row of the `ESPP-Buy` / `ESPP-Sale` / `RSU-Vest` /
`RSU-Sale` sheets: transaction date, per-share FMV in USD, share count. -/
structure EsppRow where
  date : Date
  fmv : ℚ
  shares : ℚ
deriving DecidableEq, Repr

/-- An output row of `process_espp_buy_sheet` / `process_espp_sale_sheet`
(total and per-share INR columns are reported rounded to 2 decimals). -/
structure ValuedEquityRow where
  txnDate : ℤ
  refDate : Date
  rateDate : Option ℤ
  rate : Option ℚ
  fmvUsd : ℚ
  shares : ℚ
  totalUsd : ℚ
  fmvInr : ℚ
  totalInr : ℚ
deriving DecidableEq, Repr

/-- `process_espp_buy_sheet` (source lines 138-172). -/
def process_espp_buy_sheet (df : List EsppRow) (rates_df : List RateEntry) :
    List ValuedEquityRow :=
  df.map fun row =>
    let ref_date := get_last_day_of_preceding_month row.date
    let total_usd := row.fmv * row.shares
    match get_exchange_rate (tsOfDate ref_date) rates_df with
    | some (rate, found_date) =>
      { txnDate := tsOfDate row.date, refDate := ref_date,
        rateDate := some found_date,
        rate := if rate = 0 then none else some rate,
        fmvUsd := row.fmv, shares := row.shares,
        totalUsd := round2 total_usd,
        fmvInr := round2 (if rate = 0 then 0 else row.fmv * rate),
        totalInr := round2 (if rate = 0 then 0 else total_usd * rate) }
    | none =>
      { txnDate := tsOfDate row.date, refDate := ref_date,
        rateDate := none, rate := none,
        fmvUsd := row.fmv, shares := row.shares,
        totalUsd := round2 total_usd,
        fmvInr := round2 0, totalInr := round2 0 }

/-- `process_espp_sale_sheet` (source lines 174-208); identical computation
to the buy sheet, reported under sale column labels. -/
def process_espp_sale_sheet (df : List EsppRow) (rates_df : List RateEntry) :
    List ValuedEquityRow :=
  df.map fun row =>
    let ref_date := get_last_day_of_preceding_month row.date
    let total_usd := row.fmv * row.shares
    match get_exchange_rate (tsOfDate ref_date) rates_df with
    | some (rate, found_date) =>
      { txnDate := tsOfDate row.date, refDate := ref_date,
        rateDate := some found_date,
        rate := if rate = 0 then none else some rate,
        fmvUsd := row.fmv, shares := row.shares,
        totalUsd := round2 total_usd,
        fmvInr := round2 (if rate = 0 then 0 else row.fmv * rate),
        totalInr := round2 (if rate = 0 then 0 else total_usd * rate) }
    | none =>
      { txnDate := tsOfDate row.date, refDate := ref_date,
        rateDate := none, rate := none,
        fmvUsd := row.fmv, shares := row.shares,
        totalUsd := round2 total_usd,
        fmvInr := round2 0, totalInr := round2 0 }

/-! ### FIFO matching of sales against purchase lots -/

/-- Gain classification of a matched lot. -/
inductive GainType where
  | LTCG
  | STCG
deriving DecidableEq, Repr

/-- A row of `buy_remaining`: the buy row's transaction date, per-share INR
price, original share count and the mutable `Shares Remaining` column. -/
structure BuyLot where
  date : ℤ
  price : ℚ
  orig : ℚ
  rem : ℚ
deriving DecidableEq, Repr

/-- One emitted matched-transaction record (source lines 251-265); all INR
money columns and the month column are rounded for reporting. -/
structure MatchedGain where
  saleDate : ℤ
  purchaseDate : ℤ
  holdingDays : ℤ
  holdingMonths : ℚ
  gainType : GainType
  sharesSold : ℚ
  purchasePricePerShareInr : ℚ
  salePricePerShareInr : ℚ
  totalPurchaseCostInr : ℚ
  totalSaleProceedsInr : ℚ
  capitalGainInr : ℚ
  ltcgInr : ℚ
  stcgInr : ℚ
deriving DecidableEq, Repr

instance : Inhabited MatchedGain :=
  ⟨⟨0, 0, 0, 0, GainType.STCG, 0, 0, 0, 0, 0, 0, 0, 0⟩⟩

/-- Build the matched record for `shares_matched` shares taken from a lot
(source lines 234-265): economics from exact per-share prices, holding
period in days (timestamp difference floored to days), classified long-term
at the 24-month threshold with months = days / 30.44. -/
def mkMatch (saleDate : ℤ) (salePrice : ℚ) (purchaseDate : ℤ)
    (purchasePrice : ℚ) (sharesMatched : ℚ) : MatchedGain :=
  let purchase_cost_inr := sharesMatched * purchasePrice
  let sale_proceeds_inr := sharesMatched * salePrice
  let capital_gain_inr := sale_proceeds_inr - purchase_cost_inr
  let holding_period_days := (saleDate - purchaseDate) / 1440
  let holding_period_months := (holding_period_days : ℚ) / (3044/100)
  let is_long_term := 24 ≤ holding_period_months
  { saleDate := saleDate
    purchaseDate := purchaseDate
    holdingDays := holding_period_days
    holdingMonths := round1 holding_period_months
    gainType := if is_long_term then GainType.LTCG else GainType.STCG
    sharesSold := sharesMatched
    purchasePricePerShareInr := round2 purchasePrice
    salePricePerShareInr := round2 salePrice
    totalPurchaseCostInr := round2 purchase_cost_inr
    totalSaleProceedsInr := round2 sale_proceeds_inr
    capitalGainInr := round2 capital_gain_inr
    ltcgInr := round2 (if is_long_term then capital_gain_inr else 0)
    stcgInr := round2 (if is_long_term then 0 else capital_gain_inr) }

/-- The inner lot walk for one sale (source lines 227-272): skip exhausted
lots, allocate `min(shares_to_sell, remaining)`, emit a record per positive
allocation, decrement the lot and the outstanding count, stop early once
the outstanding count reaches zero.  Returns the updated lots, the emitted
records and the outstanding (unmatched) share count. -/
def matchOneSale (saleDate : ℤ) (salePrice : ℚ) :
    List BuyLot → ℚ → List BuyLot × List MatchedGain × ℚ
  | [], toSell => ([], [], toSell)
  | lot :: rest, toSell =>
    if lot.rem ≤ 0 then
      let r := matchOneSale saleDate salePrice rest toSell
      (lot :: r.1, r.2.1, r.2.2)
    else
      let matched := min toSell lot.rem
      if 0 < matched then
        let mg := mkMatch saleDate salePrice lot.date lot.price matched
        let lot' : BuyLot := { lot with rem := lot.rem - matched }
        if toSell - matched ≤ 0 then (lot' :: rest, [mg], toSell - matched)
        else
          let r := matchOneSale saleDate salePrice rest (toSell - matched)
          (lot' :: r.1, mg :: r.2.1, r.2.2)
      else
        let r := matchOneSale saleDate salePrice rest toSell
        (lot :: r.1, r.2.1, r.2.2)

/-- The full output of the matching stage: final lot state, emitted matched
records, and the unmatched-shares warnings printed per sale. -/
structure MatchOutput where
  buyRemaining : List BuyLot
  matched_results : List MatchedGain
  warnings : List (ℤ × ℚ)
deriving DecidableEq, Repr

/-- The outer sale loop (source lines 221-275): process sales in input
order against the shared lot state; a sale with outstanding shares left
after the walk is reported as a warning. -/
def processSales : List BuyLot → List ValuedEquityRow → MatchOutput
  | lots, [] => ⟨lots, [], []⟩
  | lots, s :: ss =>
    let r := matchOneSale s.txnDate s.fmvInr lots s.shares
    let out := processSales r.1 ss
    ⟨out.buyRemaining, r.2.1 ++ out.matched_results,
      (if 0 < r.2.2 then [(s.txnDate, r.2.2)] else []) ++ out.warnings⟩

/-- Seed `buy_remaining` from the buy table: a copy with the extra
`Shares Remaining` column initialised to `No. of Shares` (source lines
216-217). -/
def seedLots (buy_df : List ValuedEquityRow) : List BuyLot :=
  buy_df.map fun b =>
    { date := b.txnDate, price := b.fmvInr, orig := b.shares, rem := b.shares }

/-- `match_sales_to_purchases` (source lines 210-277). -/
def match_sales_to_purchases (buy_df sale_df : List ValuedEquityRow) :
    MatchOutput :=
  processSales (seedLots buy_df) sale_df

/-- Sum of the original share counts of a lot list. -/
def origSum (lots : List BuyLot) : ℚ := (lots.map BuyLot.orig).sum

/-- Sum of the remaining share counts of a lot list. -/
def remSum (lots : List BuyLot) : ℚ := (lots.map BuyLot.rem).sum

/-- Total shares matched across emitted records. -/
def matchedShares (ms : List MatchedGain) : ℚ :=
  (ms.map MatchedGain.sharesSold).sum

/-- Total unmatched shares across warnings. -/
def warnedShares (ws : List (ℤ × ℚ)) : ℚ := (ws.map Prod.snd).sum

/-! ### Dataframe-store model of the matcher, for the frame property

`match_sales_to_purchases` receives a reference to the caller's buy
dataframe, copies it (`buy_df.copy()`), adds the `Shares Remaining` column
to the copy, and performs all `.at` updates on the copy.  To state that the
caller's table is untouched we model dataframe values in a store (a list of
dataframe values addressed by position); the copy allocates a fresh slot at
the end of the store and every subsequent write targets that slot. -/

/-- A dataframe value held in the store: either a valued buy table as the
caller sees it, or the matcher's working table with the extra
`Shares Remaining` column. -/
inductive DfVal where
  | raw (rows : List ValuedEquityRow)
  | lots (rows : List BuyLot)
deriving DecidableEq, Repr

/-- Read a raw buy table out of a store slot. -/
def rawAt (store : List DfVal) (i : ℕ) : List ValuedEquityRow :=
  match store.getD i (DfVal.raw []) with
  | DfVal.raw rows => rows
  | DfVal.lots _ => []

/-- Read a working lot table out of a store slot. -/
def lotsAt (store : List DfVal) (i : ℕ) : List BuyLot :=
  match store.getD i (DfVal.raw []) with
  | DfVal.lots rows => rows
  | DfVal.raw _ => []

/-- One sale of the store-level matcher: read the working table at slot
`cref` (the `iterrows` snapshot), run the lot walk, and write the
decremented `Shares Remaining` values back into that same slot (the `.at`
updates of source line 268). -/
def storeStep (cref : ℕ)
    (acc : List DfVal × List MatchedGain × List (ℤ × ℚ))
    (s : ValuedEquityRow) :
    List DfVal × List MatchedGain × List (ℤ × ℚ) :=
  let r := matchOneSale s.txnDate s.fmvInr (lotsAt acc.1 cref) s.shares
  (acc.1.set cref (DfVal.lots r.1), acc.2.1 ++ r.2.1,
    acc.2.2 ++ (if 0 < r.2.2 then [(s.txnDate, r.2.2)] else []))

/-- Store-level embedding of `match_sales_to_purchases`: `buy_df.copy()`
plus the `Shares Remaining` column assignment allocate the working table in
a fresh slot (`store.length`); every subsequent write targets that slot.
Returns the final store, the matched records and the warnings. -/
def match_sales_to_purchases_store (store : List DfVal) (buyRef : ℕ)
    (sale_df : List ValuedEquityRow) :
    List DfVal × List MatchedGain × List (ℤ × ℚ) :=
  sale_df.foldl (storeStep store.length)
    (store ++ [DfVal.lots (seedLots (rawAt store buyRef))], [], [])

/-! ### The Cash sheet (combined ESPP + RSU portfolio) -/

/-- The row tag of the Cash sheet (`row_type.lower()` comparisons of the
source: opening / closing / cash / anything else). -/
inductive CashRowType where
  | opening
  | closing
  | cash
  | other
deriving DecidableEq, Repr

/-- A parsed row of the Cash sheet: date, tag, ESPP and RSU USD values
(non-numeric cells already coerced to 0 by the `pd.to_numeric` step). -/
structure CashRow where
  date : ℤ
  typ : CashRowType
  espp : ℚ
  rsu : ℚ
deriving DecidableEq, Repr

/-- A collected cash transaction (source lines 512-517). -/
structure CashTx where
  date : ℤ
  espp : ℚ
  rsu : ℚ
deriving DecidableEq, Repr

/-- A per-row record of the Cash details output (source lines 519-529). -/
structure CashDetail where
  date : ℤ
  typ : CashRowType
  espp : ℚ
  rsu : ℚ
  combinedUsd : ℚ
  rate : Option ℚ
  combinedInr : ℚ
deriving DecidableEq, Repr

/-- `x * rate if rate else 0`: the INR conversion with Python truthiness on
the looked-up rate. -/
def truthyMulInr (usd : ℚ) (lookup : Option (ℚ × ℤ)) : ℚ :=
  match lookup with
  | some (r, _) => if r = 0 then 0 else usd * r
  | none => 0

/-- The displayed `Exchange Rate` cell: the rate, or `none` (N/A) when the
lookup failed or returned a falsy rate. -/
def truthyRate (lookup : Option (ℚ × ℤ)) : Option ℚ :=
  match lookup with
  | some (r, _) => if r = 0 then none else some r
  | none => none

/-- Accumulator state of the row loop of `process_cash_sheet` (source lines
465-529). -/
structure CashState where
  openingDate : Option ℤ := none
  closingDate : Option ℤ := none
  openingEspp : ℚ := 0
  openingRsu : ℚ := 0
  closingEspp : ℚ := 0
  closingRsu : ℚ := 0
  cashTransactions : List CashTx := []
  results : List CashDetail := []
deriving DecidableEq, Repr

/-- One iteration of the row loop of `process_cash_sheet`: record the
detail row, and update opening/closing snapshots or collect a cash
transaction according to the row tag. -/
def cashStep (rates_df : List RateEntry) (st : CashState) (row : CashRow) :
    CashState :=
  let lookup := get_exchange_rate row.date rates_df
  let combined := row.espp + row.rsu
  let detail : CashDetail :=
    { date := row.date, typ := row.typ, espp := row.espp, rsu := row.rsu,
      combinedUsd := combined,
      rate := truthyRate lookup,
      combinedInr := match lookup with
        | some (r, _) => if r = 0 then 0 else round2 (combined * r)
        | none => 0 }
  let st1 := { st with results := st.results ++ [detail] }
  match row.typ with
  | CashRowType.opening =>
    { st1 with openingDate := some row.date,
               openingEspp := row.espp, openingRsu := row.rsu }
  | CashRowType.closing =>
    { st1 with closingDate := some row.date,
               closingEspp := row.espp, closingRsu := row.rsu }
  | CashRowType.cash =>
    { st1 with cashTransactions :=
        st1.cashTransactions ++ [⟨row.date, row.espp, row.rsu⟩] }
  | CashRowType.other => st1

/-- The row loop of `process_cash_sheet`. -/
def cashState (df : List CashRow) (rates_df : List RateEntry) : CashState :=
  df.foldl (cashStep rates_df) {}

/-- A snapshot of the cash-balance timeline (source lines 549-598). -/
structure TimelineEntry where
  date : ℤ
  espp : ℚ
  rsu : ℚ
  combinedUsd : ℚ
  rate : Option ℚ
  combinedInr : ℚ
deriving DecidableEq, Repr

/-- Build one timeline snapshot: combined USD balance converted at the
snapshot's own date (unrounded; rounding happens only in the summary). -/
def mkTimelineEntry (rates_df : List RateEntry) (date : ℤ) (espp rsu : ℚ) :
    TimelineEntry :=
  let lookup := get_exchange_rate date rates_df
  { date := date, espp := espp, rsu := rsu, combinedUsd := espp + rsu,
    rate := (lookup.map Prod.fst),
    combinedInr := truthyMulInr (espp + rsu) lookup }

/-- Replay the sorted cash transactions, accumulating the running ESPP and
RSU cash balances into timeline snapshots (source lines 570-584). -/
def cashCumTimeline (rates_df : List RateEntry) :
    ℚ × ℚ → List CashTx → List TimelineEntry
  | _, [] => []
  | (e, r), tx :: txs =>
    mkTimelineEntry rates_df tx.date (e + tx.espp) (r + tx.rsu)
      :: cashCumTimeline rates_df (e + tx.espp, r + tx.rsu) txs

/-- `sorted(cash_transactions, key=lambda x: x['date'])`. -/
def sortCashTxs (txs : List CashTx) : List CashTx :=
  txs.mergeSort (fun a b => decide (a.date ≤ b.date))

/-- The full cash-balance timeline: opening snapshot, cumulative snapshots
after each (chronologically sorted) cash transaction, closing snapshot. -/
def cashTimeline (rates_df : List RateEntry) (od : ℤ) (oe orr : ℚ)
    (sortedTxs : List CashTx) (cd : ℤ) (ce cr : ℚ) : List TimelineEntry :=
  mkTimelineEntry rates_df od oe orr
    :: (cashCumTimeline rates_df (oe, orr) sortedTxs
        ++ [mkTimelineEntry rates_df cd ce cr])

/-- `max(cash_timeline, key=lambda x: x['combined_inr'])`: Python's `max`
keeps the first of several maximal entries, so the accumulator is replaced
only on a strictly larger value. -/
def maxByInr (head : TimelineEntry) (rest : List TimelineEntry) :
    TimelineEntry :=
  rest.foldl (fun best e => if best.combinedInr < e.combinedInr then e else best)
    head

/-- The peak section of `process_cash_sheet` (source lines 542-609): runs
only when both an opening and a closing row were seen; reports the
maximal-INR timeline snapshot. -/
def cashPeak (rates_df : List RateEntry) (od? cd? : Option ℤ)
    (oe orr ce cr : ℚ) (sortedTxs : List CashTx) : Option ℤ × ℚ × ℚ :=
  match od?, cd? with
  | some od, some cd =>
    match cashTimeline rates_df od oe orr sortedTxs cd ce cr with
    | [] => (none, 0, 0)
    | h :: t =>
      let m := maxByInr h t
      (some m.date, m.combinedUsd, m.combinedInr)
  | _, _ => (none, 0, 0)

/-- The Cash summary record (source lines 613-628); money columns rounded
to 2 decimals for reporting. -/
structure CashSummary where
  openingDate : Option ℤ
  openingEspp : ℚ
  openingRsu : ℚ
  openingCombinedUsd : ℚ
  openingCombinedInr : ℚ
  closingDate : Option ℤ
  closingEspp : ℚ
  closingRsu : ℚ
  closingCombinedUsd : ℚ
  closingCombinedInr : ℚ
  peakDate : Option ℤ
  peakCombinedUsd : ℚ
  peakCombinedInr : ℚ
deriving DecidableEq, Repr

/-- `usd * rate if rate else 0` against an optional snapshot date
(`get_exchange_rate(date, ...) if date else (None, None)`, source lines
531-539). -/
def snapshotInr (rates_df : List RateEntry) (d? : Option ℤ) (usd : ℚ) : ℚ :=
  match d? with
  | some d => truthyMulInr usd (get_exchange_rate d rates_df)
  | none => 0

/-- `process_cash_sheet` (source lines 460-630). -/
def process_cash_sheet (df : List CashRow) (rates_df : List RateEntry) :
    List CashDetail × CashSummary :=
  let st := cashState df rates_df
  let closing_combined_usd := st.closingEspp + st.closingRsu
  let closing_combined_inr := snapshotInr rates_df st.closingDate closing_combined_usd
  let opening_combined_usd := st.openingEspp + st.openingRsu
  let opening_combined_inr := snapshotInr rates_df st.openingDate opening_combined_usd
  let peak := cashPeak rates_df st.openingDate st.closingDate
    st.openingEspp st.openingRsu st.closingEspp st.closingRsu
    (sortCashTxs st.cashTransactions)
  (st.results,
    { openingDate := st.openingDate,
      openingEspp := round2 st.openingEspp,
      openingRsu := round2 st.openingRsu,
      openingCombinedUsd := round2 opening_combined_usd,
      openingCombinedInr := round2 opening_combined_inr,
      closingDate := st.closingDate,
      closingEspp := round2 st.closingEspp,
      closingRsu := round2 st.closingRsu,
      closingCombinedUsd := round2 closing_combined_usd,
      closingCombinedInr := round2 closing_combined_inr,
      peakDate := peak.1,
      peakCombinedUsd := round2 peak.2.1,
      peakCombinedInr := round2 peak.2.2 })

/-- The last calendar day of the month immediately preceding the month of
`d`, written directly as the spec words it (December 31 of the prior year
for January dates); used to compare `get_last_day_of_preceding_month`
against the spec. -/
def specLastDayOfPrecedingMonth (d : Date) : Date :=
  if d.month = 1 then ⟨d.year - 1, 12, 31⟩
  else ⟨d.year, d.month - 1, daysInMonth d.year (d.month - 1)⟩

/-- A valued equity row with just the fields the matcher reads (transaction
date, per-share INR price, share count); the remaining reporting fields are
inert placeholders.  Used to state concrete matcher scenarios. -/
def mkValuedRow (d : ℤ) (price shares : ℚ) : ValuedEquityRow :=
  { txnDate := d, refDate := ⟨2023, 1, 31⟩, rateDate := none, rate := none,
    fmvUsd := 0, shares := shares, totalUsd := 0, fmvInr := price,
    totalInr := 0 }

/-- A one-entry rate table whose TT-BUY rate (80.555) yields per-share INR
products that do not survive 2-decimal rounding unchanged. -/
def c4rates : List RateEntry := [⟨tsOfDate ⟨2023, 3, 31⟩, 80555/1000⟩]

/-- One buy of 100 shares at 1 USD per share on 2023-04-10 (reference date
2023-03-31). -/
def c4buys : List EsppRow := [⟨⟨2023, 4, 10⟩, 1, 100⟩]

/-- One sale of 100 shares at 2 USD per share on 2023-06-15. -/
def c4sales : List EsppRow := [⟨⟨2023, 6, 15⟩, 2, 100⟩]

/-- The single matched record the pipeline emits on `c4buys` / `c4sales` /
`c4rates`: the per-share INR prices entering the match are the rounded
sheet values 161.11 and 80.56. -/
def c4match : MatchedGain :=
  mkMatch (tsOfDate ⟨2023, 6, 15⟩) (16111/100) (tsOfDate ⟨2023, 4, 10⟩)
    (8056/100) 100

/-! ## Theorems -/

/-- Claim C6: for every input date, `get_last_day_of_preceding_month`
returns the last calendar day of the month immediately preceding the
input's month (December 31 of the prior year for January inputs), and the
returned date is strictly before the first day of the input's month. -/
theorem c6_last_day_of_preceding_month (d : Date)
    (h1 : 1 ≤ d.month) (h12 : d.month ≤ 12) :
    get_last_day_of_preceding_month d = specLastDayOfPrecedingMonth d
    ∧ (get_last_day_of_preceding_month d).day
        = daysInMonth (get_last_day_of_preceding_month d).year
            (get_last_day_of_preceding_month d).month
    ∧ dateLt (get_last_day_of_preceding_month d) ⟨d.year, d.month, 1⟩ := by
  unfold get_last_day_of_preceding_month predDay specLastDayOfPrecedingMonth
  by_cases hm : d.month = 1
  · simp only [hm]
    norm_num [dateLt, daysInMonth, isLeapYear]
  · have h2 : 1 < d.month := by omega
    simp only [show ¬ (1 : ℕ) < 1 by omega, if_false, if_pos h2, if_neg hm]
    exact ⟨trivial, trivial,
      Or.inr ⟨rfl, Or.inl (show d.month - 1 < d.month by omega)⟩⟩

/-- Witness for C6 at the concrete date 2023-05-15 (whose preceding month
end is 2023-04-30). -/
theorem c6_last_day_of_preceding_month_witness :
    get_last_day_of_preceding_month ⟨2023, 5, 15⟩
        = specLastDayOfPrecedingMonth ⟨2023, 5, 15⟩
    ∧ (get_last_day_of_preceding_month ⟨2023, 5, 15⟩).day
        = daysInMonth (get_last_day_of_preceding_month ⟨2023, 5, 15⟩).year
            (get_last_day_of_preceding_month ⟨2023, 5, 15⟩).month
    ∧ dateLt (get_last_day_of_preceding_month ⟨2023, 5, 15⟩) ⟨2023, 5, 1⟩ :=
  c6_last_day_of_preceding_month ⟨2023, 5, 15⟩ (by norm_num) (by norm_num)

theorem normalizeTs_mono {a b : ℤ} (h : a ≤ b) :
    normalizeTs a ≤ normalizeTs b := by
  unfold normalizeTs
  omega

/-- In a list sorted by descending date, the first entry with a positive
rate has the latest date among all positive-rate entries. -/
theorem find?_date_max :
    ∀ {l : List RateEntry} {e : RateEntry},
      l.Pairwise (fun a b => b.date ≤ a.date) →
      l.find? (fun x => decide (0 < x.rate)) = some e →
      ∀ x ∈ l, 0 < x.rate → x.date ≤ e.date := by
  intro l
  induction l with
  | nil => intro e _ hf; simp at hf
  | cons a t ih =>
    intro e hp hf x hx hxr
    rcases List.pairwise_cons.mp hp with ⟨ha, ht⟩
    by_cases hpa : 0 < a.rate
    · rw [List.find?_cons_of_pos _ (by simpa using hpa)] at hf
      cases hf
      rcases List.mem_cons.mp hx with rfl | hx2
      · exact le_refl _
      · exact ha x hx2
    · rw [List.find?_cons_of_neg _ (by simpa using hpa)] at hf
      rcases List.mem_cons.mp hx with rfl | hx2
      · exact absurd hxr hpa
      · exact ih ht hf x hx2 hxr

/-- Claim C1: the exchange-rate lookup never returns an entry whose
normalized date is after the target; when a qualifying entry (normalized
date on or before the target, positive rate) exists it returns a positive
rate from the latest such qualifying date, and otherwise it returns
absent.  In particular, on the two-entry table (2023-04-28, 82.50),
(2023-04-30, 0), looking up the month-end reference date of a 2023-05-02
transaction returns (82.50, 2023-04-28), skipping the zero-rate entry. -/
theorem c1_get_exchange_rate_spec :
    (∀ (target : ℤ) (rates_df : List RateEntry),
      (∀ r d, get_exchange_rate target rates_df = some (r, d) →
        0 < r ∧ (⟨d, r⟩ : RateEntry) ∈ rates_df
          ∧ normalizeTs d ≤ normalizeTs target
          ∧ ∀ e ∈ rates_df, 0 < e.rate →
              normalizeTs e.date ≤ normalizeTs target →
              normalizeTs e.date ≤ normalizeTs d)
      ∧ ((∃ e ∈ rates_df, normalizeTs e.date ≤ normalizeTs target ∧ 0 < e.rate) →
          (get_exchange_rate target rates_df).isSome = true)
      ∧ ((¬ ∃ e ∈ rates_df, normalizeTs e.date ≤ normalizeTs target ∧ 0 < e.rate) →
          get_exchange_rate target rates_df = none))
    ∧ get_exchange_rate
        (tsOfDate (get_last_day_of_preceding_month ⟨2023, 5, 2⟩))
        [⟨tsOfDate ⟨2023, 4, 28⟩, 165/2⟩, ⟨tsOfDate ⟨2023, 4, 30⟩, 0⟩]
      = some (165/2, tsOfDate ⟨2023, 4, 28⟩) := by
  constructor
  · intro target rates_df
    have htrans : ∀ (a b c : RateEntry),
        decide (b.date ≤ a.date) = true → decide (c.date ≤ b.date) = true →
        decide (c.date ≤ a.date) = true := by
      intro a b c h1 h2
      simp only [decide_eq_true_eq] at h1 h2 ⊢
      omega
    have htotal : ∀ (a b : RateEntry),
        (decide (b.date ≤ a.date) || decide (a.date ≤ b.date)) = true := by
      intro a b
      simp only [Bool.or_eq_true, decide_eq_true_eq]
      omega
    refine ⟨?_, ?_, ?_⟩
    · intro r d h
      simp only [get_exchange_rate] at h
      split at h
      · exact absurd h (by simp)
      · split at h
        next e hfind =>
          injection h with h2
          injection h2 with hr hd
          subst hr
          subst hd
          have hpos : 0 < e.rate := by
            have := List.find?_some hfind
            simpa using this
          have hmem_sorted := List.mem_of_find?_eq_some hfind
          have hmem_avail := List.mem_mergeSort.mp hmem_sorted
          have hmem := List.mem_filter.mp hmem_avail
          refine ⟨hpos, hmem.1, by simpa using hmem.2, ?_⟩
          intro x hx hxpos hxle
          have hsorted := @List.sorted_mergeSort RateEntry
            (fun a b => decide (b.date ≤ a.date)) htrans htotal
            (rates_df.filter
              (fun e => decide (normalizeTs e.date ≤ normalizeTs target)))
          have hsorted' : (List.mergeSort
              (rates_df.filter
                (fun e => decide (normalizeTs e.date ≤ normalizeTs target)))
              (fun a b => decide (b.date ≤ a.date))).Pairwise
              (fun a b => b.date ≤ a.date) :=
            hsorted.imp (fun h => by simpa using h)
          have hxs : x ∈ List.mergeSort
              (rates_df.filter
                (fun e => decide (normalizeTs e.date ≤ normalizeTs target)))
              (fun a b => decide (b.date ≤ a.date)) :=
            List.mem_mergeSort.mpr
              (List.mem_filter.mpr ⟨hx, by simpa using hxle⟩)
          have := find?_date_max hsorted' hfind x hxs hxpos
          exact normalizeTs_mono this
        next => exact absurd h (by simp)
    · rintro ⟨e, he, hle, hpos⟩
      simp only [get_exchange_rate]
      have hmem_avail : e ∈ rates_df.filter
          (fun e => decide (normalizeTs e.date ≤ normalizeTs target)) :=
        List.mem_filter.mpr ⟨he, by simpa using hle⟩
      have hne : ¬ (rates_df.filter
          (fun e => decide (normalizeTs e.date ≤ normalizeTs target))).isEmpty
            = true := by
        simp only [List.isEmpty_eq_true]
        intro hnil
        rw [hnil] at hmem_avail
        simp at hmem_avail
      rw [if_neg hne]
      have hfs : (List.find? (fun e => decide (0 < e.rate))
          (List.mergeSort (rates_df.filter
            (fun e => decide (normalizeTs e.date ≤ normalizeTs target)))
            (fun a b => decide (b.date ≤ a.date)))).isSome = true :=
        List.find?_isSome.mpr
          ⟨e, List.mem_mergeSort.mpr hmem_avail, by simpa using hpos⟩
      obtain ⟨e2, hfind⟩ := Option.isSome_iff_exists.mp hfs
      rw [hfind]
      rfl
    · intro hn
      simp only [get_exchange_rate]
      split
      · rfl
      · split
        next e hfind =>
          exfalso
          have hpos : 0 < e.rate := by
            have := List.find?_some hfind
            simpa using this
          have hmem := List.mem_filter.mp
            (List.mem_mergeSort.mp (List.mem_of_find?_eq_some hfind))
          exact hn ⟨e, hmem.1, by simpa using hmem.2, hpos⟩
        next => rfl
  · norm_num [get_exchange_rate, normalizeTs, tsOfDate, toRataDie,
      get_last_day_of_preceding_month, predDay, daysInMonth, isLeapYear,
      List.mergeSort, List.filter]

/-- Witness for C1: on the concrete two-entry table of the example, the
existence branch of the theorem yields a defined lookup result. -/
theorem c1_get_exchange_rate_spec_witness :
    (get_exchange_rate (tsOfDate ⟨2023, 4, 30⟩)
      [⟨tsOfDate ⟨2023, 4, 28⟩, 165/2⟩,
       ⟨tsOfDate ⟨2023, 4, 30⟩, 0⟩]).isSome = true :=
  ((c1_get_exchange_rate_spec.1 (tsOfDate ⟨2023, 4, 30⟩)
      [⟨tsOfDate ⟨2023, 4, 28⟩, 165/2⟩,
       ⟨tsOfDate ⟨2023, 4, 30⟩, 0⟩]).2.1)
    ⟨⟨tsOfDate ⟨2023, 4, 28⟩, 165/2⟩, by norm_num,
      normalizeTs_mono (by norm_num [tsOfDate, toRataDie]), by norm_num⟩

theorem remSum_nil : remSum [] = 0 := rfl

theorem remSum_cons (a : BuyLot) (l : List BuyLot) :
    remSum (a :: l) = a.rem + remSum l := by
  simp [remSum]

theorem origSum_nil : origSum [] = 0 := rfl

theorem origSum_cons (a : BuyLot) (l : List BuyLot) :
    origSum (a :: l) = a.orig + origSum l := by
  simp [origSum]

theorem matchedShares_nil : matchedShares [] = 0 := rfl

theorem matchedShares_cons (m : MatchedGain) (ms : List MatchedGain) :
    matchedShares (m :: ms) = m.sharesSold + matchedShares ms := by
  simp [matchedShares]

theorem matchedShares_append (a b : List MatchedGain) :
    matchedShares (a ++ b) = matchedShares a + matchedShares b := by
  simp [matchedShares]

theorem warnedShares_nil : warnedShares [] = 0 := rfl

theorem warnedShares_append (a b : List (ℤ × ℚ)) :
    warnedShares (a ++ b) = warnedShares a + warnedShares b := by
  simp [warnedShares]

theorem mkMatch_sharesSold (sd : ℤ) (sp : ℚ) (pd : ℤ) (pp m : ℚ) :
    (mkMatch sd sp pd pp m).sharesSold = m := rfl

theorem mkMatch_holdingDays (sd : ℤ) (sp : ℚ) (pd : ℤ) (pp m : ℚ) :
    (mkMatch sd sp pd pp m).holdingDays = (sd - pd) / 1440 := rfl

theorem mkMatch_gainType (sd : ℤ) (sp : ℚ) (pd : ℤ) (pp m : ℚ) :
    (mkMatch sd sp pd pp m).gainType
      = if 24 ≤ (((sd - pd) / 1440 : ℤ) : ℚ) / (3044/100)
        then GainType.LTCG else GainType.STCG := rfl

theorem mkMatch_capitalGainInr (sd : ℤ) (sp : ℚ) (pd : ℤ) (pp m : ℚ) :
    (mkMatch sd sp pd pp m).capitalGainInr = round2 (m * sp - m * pp) := rfl

theorem mkMatch_ltcgInr (sd : ℤ) (sp : ℚ) (pd : ℤ) (pp m : ℚ) :
    (mkMatch sd sp pd pp m).ltcgInr
      = round2 (if 24 ≤ (((sd - pd) / 1440 : ℤ) : ℚ) / (3044/100)
          then m * sp - m * pp else 0) := rfl

theorem mkMatch_stcgInr (sd : ℤ) (sp : ℚ) (pd : ℤ) (pp m : ℚ) :
    (mkMatch sd sp pd pp m).stcgInr
      = round2 (if 24 ≤ (((sd - pd) / 1440 : ℤ) : ℚ) / (3044/100)
          then 0 else m * sp - m * pp) := rfl

theorem mkMatch_totalPurchaseCostInr (sd : ℤ) (sp : ℚ) (pd : ℤ) (pp m : ℚ) :
    (mkMatch sd sp pd pp m).totalPurchaseCostInr = round2 (m * pp) := rfl

theorem mkMatch_totalSaleProceedsInr (sd : ℤ) (sp : ℚ) (pd : ℤ) (pp m : ℚ) :
    (mkMatch sd sp pd pp m).totalSaleProceedsInr = round2 (m * sp) := rfl

theorem mkMatch_purchasePricePerShareInr (sd : ℤ) (sp : ℚ) (pd : ℤ) (pp m : ℚ) :
    (mkMatch sd sp pd pp m).purchasePricePerShareInr = round2 pp := rfl

theorem mkMatch_salePricePerShareInr (sd : ℤ) (sp : ℚ) (pd : ℤ) (pp m : ℚ) :
    (mkMatch sd sp pd pp m).salePricePerShareInr = round2 sp := rfl

/-- Combined invariant of the single-sale lot walk: the walk preserves each
lot's date, price and original share count; the total decrease of remaining
shares equals the total of the emitted records' matched shares; the
leftover equals the requested quantity minus the matched total; a
nonnegative request leaves a nonnegative leftover; and every emitted record
is `mkMatch` of the sale data with some input lot's date
and price and a positive matched quantity. -/
theorem matchOneSale_spec (saleDate : ℤ) (salePrice : ℚ) :
    ∀ (lots : List BuyLot) (toSell : ℚ),
      ((matchOneSale saleDate salePrice lots toSell).1.map
            (fun l => (l.date, l.price, l.orig))
          = lots.map (fun l => (l.date, l.price, l.orig)))
      ∧ remSum (matchOneSale saleDate salePrice lots toSell).1
          = remSum lots
            - matchedShares (matchOneSale saleDate salePrice lots toSell).2.1
      ∧ (matchOneSale saleDate salePrice lots toSell).2.2
          = toSell - matchedShares (matchOneSale saleDate salePrice lots toSell).2.1
      ∧ (0 ≤ toSell → 0 ≤ (matchOneSale saleDate salePrice lots toSell).2.2)
      ∧ ∀ mg ∈ (matchOneSale saleDate salePrice lots toSell).2.1,
          ∃ l ∈ lots, ∃ m : ℚ, 0 < m ∧
            mg = mkMatch saleDate salePrice l.date l.price m := by
  intro lots
  induction lots with
  | nil =>
    intro toSell
    simp [matchOneSale, remSum_nil, matchedShares_nil]
  | cons lot rest ih =>
    intro toSell
    by_cases h1 : lot.rem ≤ 0
    · obtain ⟨ha, hb, hc, hd, he⟩ := ih toSell
      simp only [matchOneSale, if_pos h1]
      refine ⟨by simp [ha], ?_, hc, hd, ?_⟩
      · rw [remSum_cons, remSum_cons, hb]
        ring
      · intro mg hmg
        obtain ⟨l, hl, m, hm, hmg2⟩ := he mg hmg
        exact ⟨l, List.mem_cons_of_mem _ hl, m, hm, hmg2⟩
    · by_cases h2 : 0 < min toSell lot.rem
      · by_cases h3 : toSell - min toSell lot.rem ≤ 0
        · simp only [matchOneSale, if_neg h1, if_pos h2, if_pos h3]
          refine ⟨by simp, ?_, ?_, ?_, ?_⟩
          · rw [remSum_cons, remSum_cons, matchedShares_cons,
              matchedShares_nil, mkMatch_sharesSold]
            try dsimp only
            ring
          · rw [matchedShares_cons, matchedShares_nil, mkMatch_sharesSold]
            ring
          · intro _
            have := min_le_left toSell lot.rem
            try dsimp only
            linarith
          · intro mg hmg
            rw [List.mem_singleton] at hmg
            exact ⟨lot, List.mem_cons_self _ _, min toSell lot.rem, h2, hmg⟩
        · obtain ⟨ha, hb, hc, hd, he⟩ := ih (toSell - min toSell lot.rem)
          simp only [matchOneSale, if_neg h1, if_pos h2, if_neg h3]
          refine ⟨by simp [ha], ?_, ?_, ?_, ?_⟩
          · rw [remSum_cons, remSum_cons, matchedShares_cons,
              mkMatch_sharesSold, hb]
            try dsimp only
            ring
          · rw [matchedShares_cons, mkMatch_sharesSold, hc]
            ring
          · intro _
            exact hd (by linarith [lt_of_not_le h3])
          · intro mg hmg
            rcases List.mem_cons.mp hmg with rfl | hmg2
            · exact ⟨lot, List.mem_cons_self _ _, min toSell lot.rem, h2, rfl⟩
            · obtain ⟨l, hl, m, hm, hmg3⟩ := he mg hmg2
              exact ⟨l, List.mem_cons_of_mem _ hl, m, hm, hmg3⟩
      · obtain ⟨ha, hb, hc, hd, he⟩ := ih toSell
        simp only [matchOneSale, if_neg h1, if_neg h2]
        refine ⟨by simp [ha], ?_, hc, hd, ?_⟩
        · rw [remSum_cons, remSum_cons, hb]
          ring
        · intro mg hmg
          obtain ⟨l, hl, m, hm, hmg2⟩ := he mg hmg
          exact ⟨l, List.mem_cons_of_mem _ hl, m, hm, hmg2⟩

theorem map_pair_of_map_triple {l1 l2 : List BuyLot}
    (h : l1.map (fun l => (l.date, l.price, l.orig))
        = l2.map (fun l => (l.date, l.price, l.orig))) :
    l1.map (fun l => (l.date, l.price)) = l2.map (fun l => (l.date, l.price)) := by
  have := congrArg (List.map (fun t : ℤ × ℚ × ℚ => (t.1, t.2.1))) h
  simpa [List.map_map, Function.comp] using this

theorem origSum_of_map_triple {l1 l2 : List BuyLot}
    (h : l1.map (fun l => (l.date, l.price, l.orig))
        = l2.map (fun l => (l.date, l.price, l.orig))) :
    origSum l1 = origSum l2 := by
  have := congrArg (fun t => (t.map (fun p : ℤ × ℚ × ℚ => p.2.2)).sum) h
  simpa [origSum, List.map_map, Function.comp] using this

/-- Combined invariant of the outer sale loop: lot identity columns are
preserved; the total decrease of remaining shares equals the total matched
across all emitted records; for nonnegative sale quantities the requested
total splits exactly into matched plus warned-unmatched; and every emitted
record is `mkMatch` of some input sale's data and some input lot's date and
price, with a positive matched quantity. -/
theorem processSales_spec :
    ∀ (sales : List ValuedEquityRow) (lots : List BuyLot),
      ((processSales lots sales).buyRemaining.map
            (fun l => (l.date, l.price, l.orig))
          = lots.map (fun l => (l.date, l.price, l.orig)))
      ∧ remSum (processSales lots sales).buyRemaining
          = remSum lots - matchedShares (processSales lots sales).matched_results
      ∧ ((∀ s ∈ sales, 0 ≤ s.shares) →
          (sales.map ValuedEquityRow.shares).sum
            = matchedShares (processSales lots sales).matched_results
              + warnedShares (processSales lots sales).warnings)
      ∧ ∀ mg ∈ (processSales lots sales).matched_results,
          ∃ s ∈ sales, ∃ p ∈ lots.map (fun l => (l.date, l.price)),
            ∃ m : ℚ, 0 < m ∧ mg = mkMatch s.txnDate s.fmvInr p.1 p.2 m := by
  intro sales
  induction sales with
  | nil =>
    intro lots
    simp [processSales, matchedShares_nil, warnedShares_nil]
  | cons s ss ih =>
    intro lots
    obtain ⟨ma, mb, mc, md, me⟩ :=
      matchOneSale_spec s.txnDate s.fmvInr lots s.shares
    obtain ⟨ia, ib, ic, ie⟩ :=
      ih (matchOneSale s.txnDate s.fmvInr lots s.shares).1
    simp only [processSales]
    refine ⟨ia.trans ma, ?_, ?_, ?_⟩
    · rw [ib, mb, matchedShares_append]
      ring
    · intro hnn
      have h0 : (0 : ℚ) ≤ s.shares := hnn s (List.mem_cons_self _ _)
      have hrest := ic (fun x hx => hnn x (List.mem_cons_of_mem _ hx))
      rw [List.map_cons, List.sum_cons, hrest, matchedShares_append,
        warnedShares_append]
      by_cases hw : 0 < (matchOneSale s.txnDate s.fmvInr lots s.shares).2.2
      · rw [if_pos hw]
        have : warnedShares [(s.txnDate,
            (matchOneSale s.txnDate s.fmvInr lots s.shares).2.2)]
            = (matchOneSale s.txnDate s.fmvInr lots s.shares).2.2 := by
          simp [warnedShares]
        rw [this]
        have := mc
        linarith
      · rw [if_neg hw, warnedShares_nil]
        have hge := md h0
        have hle : (matchOneSale s.txnDate s.fmvInr lots s.shares).2.2 ≤ 0 :=
          le_of_not_lt hw
        have hz : (matchOneSale s.txnDate s.fmvInr lots s.shares).2.2 = 0 :=
          le_antisymm hle hge
        have := mc
        linarith
    · intro mg hmg
      rcases List.mem_append.mp hmg with hmg1 | hmg2
      · obtain ⟨l, hl, m, hm, hmg3⟩ := me mg hmg1
        exact ⟨s, List.mem_cons_self _ _,
          (l.date, l.price), List.mem_map_of_mem _ hl, m, hm, hmg3⟩
      · obtain ⟨s2, hs2, p, hp, m, hm, hmg3⟩ := ie mg hmg2
        refine ⟨s2, List.mem_cons_of_mem _ hs2, p, ?_, m, hm, hmg3⟩
        rw [← map_pair_of_map_triple ma]
        exact hp

theorem mkMatch_purchaseDate (sd : ℤ) (sp : ℚ) (pd : ℤ) (pp m : ℚ) :
    (mkMatch sd sp pd pp m).purchaseDate = pd := rfl

theorem mkMatch_saleDate (sd : ℤ) (sp : ℚ) (pd : ℤ) (pp m : ℚ) :
    (mkMatch sd sp pd pp m).saleDate = sd := rfl

/-- Claim C2 (counterexample): one lot of 10 shares and one sale of 15
shares.  The lot is fully consumed (orig − rem = 10), the emitted matched
records total 10 shares, and the warning reports 5 unmatched shares, so the
claimed equation 10 = 10 + 5 fails. -/
theorem c2_fifo_conservation_counterexample :
    ¬ (origSum (match_sales_to_purchases [mkValuedRow 0 10 10]
          [mkValuedRow 1440 20 15]).buyRemaining
        - remSum (match_sales_to_purchases [mkValuedRow 0 10 10]
            [mkValuedRow 1440 20 15]).buyRemaining
      = matchedShares (match_sales_to_purchases [mkValuedRow 0 10 10]
            [mkValuedRow 1440 20 15]).matched_results
        + warnedShares (match_sales_to_purchases [mkValuedRow 0 10 10]
            [mkValuedRow 1440 20 15]).warnings) := by
  norm_num [match_sales_to_purchases, processSales, matchOneSale, seedLots,
    mkValuedRow, mkMatch_sharesSold, origSum, remSum, matchedShares,
    warnedShares, min_def]

/-- Claim C2 (amended): after all sales are processed, the sum over lots of
original shares minus the sum of final remaining shares equals the total of
sharesMatched over all emitted MatchedGain records; and when every sale
quantity is nonnegative, the total requested sale quantity splits exactly
into total matched plus the total unmatched shares reported in warnings. -/
theorem c2_fifo_conservation (buys sales : List ValuedEquityRow) :
    (origSum (match_sales_to_purchases buys sales).buyRemaining
        - remSum (match_sales_to_purchases buys sales).buyRemaining
      = matchedShares (match_sales_to_purchases buys sales).matched_results)
    ∧ ((∀ s ∈ sales, 0 ≤ s.shares) →
        (sales.map ValuedEquityRow.shares).sum
          = matchedShares (match_sales_to_purchases buys sales).matched_results
            + warnedShares (match_sales_to_purchases buys sales).warnings) := by
  obtain ⟨pa, pb, pc, _⟩ := processSales_spec sales (seedLots buys)
  have h1 : origSum (processSales (seedLots buys) sales).buyRemaining
      = origSum (seedLots buys) := origSum_of_map_triple pa
  have h2 : remSum (seedLots buys) = origSum (seedLots buys) := by
    unfold remSum origSum seedLots
    rw [List.map_map, List.map_map]
    rfl
  unfold match_sales_to_purchases
  refine ⟨?_, pc⟩
  rw [h1, pb, h2]
  ring

/-- Witness for C2 on the counterexample scenario (one 10-share lot, one
15-share sale): the conservation equation and, the sale quantity being
nonnegative, the requested-quantity split. -/
theorem c2_fifo_conservation_witness :
    (origSum (match_sales_to_purchases [mkValuedRow 0 10 10]
          [mkValuedRow 1440 20 15]).buyRemaining
        - remSum (match_sales_to_purchases [mkValuedRow 0 10 10]
            [mkValuedRow 1440 20 15]).buyRemaining
      = matchedShares (match_sales_to_purchases [mkValuedRow 0 10 10]
            [mkValuedRow 1440 20 15]).matched_results)
    ∧ (([mkValuedRow 1440 20 15].map ValuedEquityRow.shares).sum
        = matchedShares (match_sales_to_purchases [mkValuedRow 0 10 10]
              [mkValuedRow 1440 20 15]).matched_results
          + warnedShares (match_sales_to_purchases [mkValuedRow 0 10 10]
              [mkValuedRow 1440 20 15]).warnings) :=
  ⟨(c2_fifo_conservation [mkValuedRow 0 10 10] [mkValuedRow 1440 20 15]).1,
   (c2_fifo_conservation [mkValuedRow 0 10 10] [mkValuedRow 1440 20 15]).2
    (by intro s hs
        rw [List.mem_singleton] at hs
        subst hs
        norm_num [mkValuedRow])⟩

/-- Claim C3: every emitted MatchedGain is classified LTCG exactly when
holdingDays / 30.44 is at least 24 months; the two classes are disjoint and
cover all records; and the full (reported) gain sits in the LTCG column
with 0 in STCG for long-term records, and vice versa for short-term. -/
theorem c3_gain_classification (buys sales : List ValuedEquityRow) :
    ∀ mg ∈ (match_sales_to_purchases buys sales).matched_results,
      (mg.gainType = GainType.LTCG ↔ 24 ≤ (mg.holdingDays : ℚ) / (3044/100))
      ∧ (mg.gainType = GainType.LTCG ∨ mg.gainType = GainType.STCG)
      ∧ (mg.gainType = GainType.LTCG →
          mg.ltcgInr = mg.capitalGainInr ∧ mg.stcgInr = 0)
      ∧ (mg.gainType = GainType.STCG →
          mg.stcgInr = mg.capitalGainInr ∧ mg.ltcgInr = 0) := by
  intro mg hmg
  obtain ⟨s, hs, p, hp, m, hm, rfl⟩ :=
    (processSales_spec sales (seedLots buys)).2.2.2 mg hmg
  by_cases hlt : (24 : ℚ) ≤ (((s.txnDate - p.1) / 1440 : ℤ) : ℚ) / (3044/100)
  · refine ⟨?_, ?_, ?_, ?_⟩
    · rw [mkMatch_gainType, if_pos hlt, mkMatch_holdingDays]
      exact ⟨fun _ => hlt, fun _ => rfl⟩
    · rw [mkMatch_gainType, if_pos hlt]
      exact Or.inl rfl
    · intro _
      rw [mkMatch_ltcgInr, if_pos hlt, mkMatch_stcgInr, if_pos hlt,
        mkMatch_capitalGainInr]
      exact ⟨rfl, round2_zero⟩
    · intro hc
      rw [mkMatch_gainType, if_pos hlt] at hc
      exact absurd hc (by simp)
  · refine ⟨?_, ?_, ?_, ?_⟩
    · rw [mkMatch_gainType, if_neg hlt, mkMatch_holdingDays]
      exact ⟨fun hc => absurd hc (by simp), fun hh => absurd hh hlt⟩
    · rw [mkMatch_gainType, if_neg hlt]
      exact Or.inr rfl
    · intro hc
      rw [mkMatch_gainType, if_neg hlt] at hc
      exact absurd hc (by simp)
    · intro _
      rw [mkMatch_stcgInr, if_neg hlt, mkMatch_ltcgInr, if_neg hlt,
        mkMatch_capitalGainInr]
      exact ⟨rfl, round2_zero⟩

/-- Witness for C3: the matched record of a 731-day (≈ 24.01-month)
holding, emitted for a 50-share lot sold in full. -/
theorem c3_gain_classification_witness :
    ((mkMatch (1440*731) 1000 0 800 50).gainType = GainType.LTCG
        ↔ 24 ≤ ((mkMatch (1440*731) 1000 0 800 50).holdingDays : ℚ) / (3044/100))
    ∧ ((mkMatch (1440*731) 1000 0 800 50).gainType = GainType.LTCG
        ∨ (mkMatch (1440*731) 1000 0 800 50).gainType = GainType.STCG)
    ∧ ((mkMatch (1440*731) 1000 0 800 50).gainType = GainType.LTCG →
        (mkMatch (1440*731) 1000 0 800 50).ltcgInr
          = (mkMatch (1440*731) 1000 0 800 50).capitalGainInr
        ∧ (mkMatch (1440*731) 1000 0 800 50).stcgInr = 0)
    ∧ ((mkMatch (1440*731) 1000 0 800 50).gainType = GainType.STCG →
        (mkMatch (1440*731) 1000 0 800 50).stcgInr
          = (mkMatch (1440*731) 1000 0 800 50).capitalGainInr
        ∧ (mkMatch (1440*731) 1000 0 800 50).ltcgInr = 0) :=
  c3_gain_classification [mkValuedRow 0 800 50] [mkValuedRow (1440*731) 1000 50]
    (mkMatch (1440*731) 1000 0 800 50)
    (by norm_num [match_sales_to_purchases, processSales, matchOneSale,
      seedLots, mkValuedRow, min_def])

/-- Claim C7: two lots (50 shares at ₹800, then 50 shares at ₹900, both
earlier than the sale) and one 70-share sale yield exactly two matched
records — 50 shares from the first lot, then 20 from the second — leaving
remaining shares [0, 30] and no unmatched-shares warning. -/
theorem c7_two_lot_scenario :
    ((match_sales_to_purchases
        [mkValuedRow 0 800 50, mkValuedRow 1440 900 50]
        [mkValuedRow 144000 1000 70]).matched_results.map
        (fun mg => (mg.purchaseDate, mg.sharesSold)) = [(0, 50), (1440, 20)])
    ∧ ((match_sales_to_purchases
        [mkValuedRow 0 800 50, mkValuedRow 1440 900 50]
        [mkValuedRow 144000 1000 70]).buyRemaining.map BuyLot.rem = [0, 30])
    ∧ (match_sales_to_purchases
        [mkValuedRow 0 800 50, mkValuedRow 1440 900 50]
        [mkValuedRow 144000 1000 70]).warnings = [] := by
  norm_num [match_sales_to_purchases, processSales, matchOneSale, seedLots,
    mkValuedRow, mkMatch_sharesSold, mkMatch_purchaseDate, min_def]

theorem c4_lookup_buy :
    get_exchange_rate (tsOfDate (get_last_day_of_preceding_month
        ⟨2023, 4, 10⟩)) c4rates
      = some (80555/1000, tsOfDate ⟨2023, 3, 31⟩) := by
  norm_num [get_exchange_rate, normalizeTs, tsOfDate, toRataDie,
    get_last_day_of_preceding_month, predDay, daysInMonth, isLeapYear,
    List.mergeSort, List.filter, c4rates]

theorem c4_lookup_sale :
    get_exchange_rate (tsOfDate (get_last_day_of_preceding_month
        ⟨2023, 6, 15⟩)) c4rates
      = some (80555/1000, tsOfDate ⟨2023, 3, 31⟩) := by
  norm_num [get_exchange_rate, normalizeTs, tsOfDate, toRataDie,
    get_last_day_of_preceding_month, predDay, daysInMonth, isLeapYear,
    List.mergeSort, List.filter, c4rates]

theorem c4_valued_buy :
    process_espp_buy_sheet c4buys c4rates
      = [{ txnDate := tsOfDate ⟨2023, 4, 10⟩, refDate := ⟨2023, 3, 31⟩,
           rateDate := some (tsOfDate ⟨2023, 3, 31⟩),
           rate := some (80555/1000), fmvUsd := 1, shares := 100,
           totalUsd := 100, fmvInr := 8056/100, totalInr := 16111/2 }] := by
  simp only [process_espp_buy_sheet, c4buys, List.map_cons, List.map_nil]
  rw [c4_lookup_buy]
  norm_num [get_last_day_of_preceding_month, predDay, daysInMonth,
    isLeapYear, round2, roundHalfEven, Int.floor_eq_iff, Int.fract]

theorem c4_valued_sale :
    process_espp_sale_sheet c4sales c4rates
      = [{ txnDate := tsOfDate ⟨2023, 6, 15⟩, refDate := ⟨2023, 5, 31⟩,
           rateDate := some (tsOfDate ⟨2023, 3, 31⟩),
           rate := some (80555/1000), fmvUsd := 2, shares := 100,
           totalUsd := 200, fmvInr := 16111/100, totalInr := 16111 }] := by
  simp only [process_espp_sale_sheet, c4sales, List.map_cons, List.map_nil]
  rw [c4_lookup_sale]
  norm_num [get_last_day_of_preceding_month, predDay, daysInMonth,
    isLeapYear, round2, roundHalfEven, Int.floor_eq_iff, Int.fract]

theorem c4_matched :
    (match_sales_to_purchases (process_espp_buy_sheet c4buys c4rates)
        (process_espp_sale_sheet c4sales c4rates)).matched_results
      = [c4match] := by
  rw [c4_valued_buy, c4_valued_sale]
  norm_num [match_sales_to_purchases, processSales, matchOneSale, seedLots,
    min_def, c4match]

/-- Claim C4 (counterexample): with rate 80.555 and a 1-USD-per-share buy
of 100 shares, the valuation stage reports the per-share INR price rounded
to 80.56; the FIFO matching stage seeds its lots with exactly that rounded
price, not the exact product 1 x 80.555, and accordingly reports a
purchase cost of 8056 instead of round2(100 x 80.555) = 8055.5. -/
theorem c4_exact_price_counterexample :
    ((seedLots (process_espp_buy_sheet c4buys c4rates)).map BuyLot.price
        = [8056/100])
    ∧ (get_exchange_rate (tsOfDate (get_last_day_of_preceding_month
          ⟨2023, 4, 10⟩)) c4rates
        = some (80555/1000, tsOfDate ⟨2023, 3, 31⟩))
    ∧ ((8056/100 : ℚ) ≠ 1 * (80555/1000))
    ∧ ((match_sales_to_purchases (process_espp_buy_sheet c4buys c4rates)
          (process_espp_sale_sheet c4sales c4rates)).matched_results.map
          MatchedGain.totalPurchaseCostInr = [8056])
    ∧ ((8056 : ℚ) ≠ round2 (100 * (1 * (80555/1000)))) := by
  refine ⟨?_, c4_lookup_buy, by norm_num, ?_, ?_⟩
  · rw [c4_valued_buy]
    norm_num [seedLots]
  · rw [c4_matched]
    norm_num [c4match, mkMatch_totalPurchaseCostInr, round2, roundHalfEven,
      Int.floor_eq_iff, Int.fract]
  · norm_num [round2, roundHalfEven, Int.floor_eq_iff, Int.fract]

/-- Claim C4 (amended): the per-share INR prices the FIFO matching stage
uses are the 2-decimal-rounded per-share INR columns of the valuation
stage, reproduced exactly from those sheets; from these (already rounded)
prices the matcher computes cost, proceeds and gain exactly, rounding the
results to 2 decimals only in the emitted record. -/
theorem c4_rounded_prices_through_matching (buyRows saleRows : List EsppRow)
    (rates_df : List RateEntry) :
    ∀ mg ∈ (match_sales_to_purchases (process_espp_buy_sheet buyRows rates_df)
        (process_espp_sale_sheet saleRows rates_df)).matched_results,
      ∃ b ∈ process_espp_buy_sheet buyRows rates_df,
        ∃ s ∈ process_espp_sale_sheet saleRows rates_df,
          mg.totalPurchaseCostInr = round2 (mg.sharesSold * b.fmvInr)
          ∧ mg.totalSaleProceedsInr = round2 (mg.sharesSold * s.fmvInr)
          ∧ mg.capitalGainInr
              = round2 (mg.sharesSold * s.fmvInr - mg.sharesSold * b.fmvInr)
          ∧ mg.purchasePricePerShareInr = round2 b.fmvInr
          ∧ mg.salePricePerShareInr = round2 s.fmvInr := by
  intro mg hmg
  obtain ⟨s, hs, p, hp, m, hm, rfl⟩ :=
    (processSales_spec (process_espp_sale_sheet saleRows rates_df)
      (seedLots (process_espp_buy_sheet buyRows rates_df))).2.2.2 mg hmg
  have hseed : (seedLots (process_espp_buy_sheet buyRows rates_df)).map
        (fun l => (l.date, l.price))
      = (process_espp_buy_sheet buyRows rates_df).map
        (fun b => (b.txnDate, b.fmvInr)) := by
    unfold seedLots
    rw [List.map_map]
    rfl
  rw [hseed] at hp
  obtain ⟨b, hb, hbp⟩ := List.mem_map.mp hp
  obtain rfl : p = (b.txnDate, b.fmvInr) := hbp.symm
  refine ⟨b, hb, s, hs, ?_, ?_, ?_, ?_, ?_⟩
  · rw [mkMatch_totalPurchaseCostInr, mkMatch_sharesSold]
  · rw [mkMatch_totalSaleProceedsInr, mkMatch_sharesSold]
  · rw [mkMatch_capitalGainInr, mkMatch_sharesSold]
  · rw [mkMatch_purchasePricePerShareInr]
  · rw [mkMatch_salePricePerShareInr]

/-- Witness for C4 (amended) on the concrete pipeline of the
counterexample inputs: the emitted record's money columns are the rounded
products of the rounded sheet prices. -/
theorem c4_rounded_prices_through_matching_witness :
    ∃ b ∈ process_espp_buy_sheet c4buys c4rates,
      ∃ s ∈ process_espp_sale_sheet c4sales c4rates,
        c4match.totalPurchaseCostInr = round2 (c4match.sharesSold * b.fmvInr)
        ∧ c4match.totalSaleProceedsInr = round2 (c4match.sharesSold * s.fmvInr)
        ∧ c4match.capitalGainInr
            = round2 (c4match.sharesSold * s.fmvInr
                - c4match.sharesSold * b.fmvInr)
        ∧ c4match.purchasePricePerShareInr = round2 b.fmvInr
        ∧ c4match.salePricePerShareInr = round2 s.fmvInr :=
  c4_rounded_prices_through_matching c4buys c4sales c4rates c4match
    (by rw [c4_matched]
        exact List.mem_singleton.mpr rfl)

/-- Claim C8: when the rate lookup for a row's month-end reference date is
absent, the dividend row is still emitted (output length equals input
length, so processing of remaining rows continues) with INR amounts 0 and
N/A markers (`none`) for the rate and rate-source date; no other rate is
substituted. -/
theorem c8_missing_rate_handling (rows : List DivRow)
    (rates_df : List RateEntry) :
    (process_dividend_sheet rows rates_df).length = rows.length
    ∧ ∀ (i : ℕ) (hi : i < rows.length)
        (ho : i < (process_dividend_sheet rows rates_df).length),
        get_exchange_rate (tsOfDate (get_last_day_of_preceding_month
            (rows.get ⟨i, hi⟩).date)) rates_df = none →
        ((process_dividend_sheet rows rates_df).get ⟨i, ho⟩).rate = none
        ∧ ((process_dividend_sheet rows rates_df).get ⟨i, ho⟩).rateDate = none
        ∧ ((process_dividend_sheet rows rates_df).get ⟨i, ho⟩).valueInr = 0
        ∧ ((process_dividend_sheet rows rates_df).get ⟨i, ho⟩).taxInr = 0 := by
  constructor
  · simp [process_dividend_sheet]
  · intro i hi ho hl
    simp only [process_dividend_sheet, List.get_eq_getElem,
      List.getElem_map] at ho ⊢
    simp only [List.get_eq_getElem] at hl
    rw [hl]
    exact ⟨rfl, rfl, round2_zero, round2_zero⟩

/-- Witness for C8: a single dividend row against an empty rate table. -/
theorem c8_missing_rate_handling_witness :
    (process_dividend_sheet [⟨⟨2023, 5, 15⟩, 7, 3⟩] []).length
        = ([⟨⟨2023, 5, 15⟩, 7, 3⟩] : List DivRow).length
    ∧ (((process_dividend_sheet [⟨⟨2023, 5, 15⟩, 7, 3⟩] []).get
          ⟨0, by norm_num [process_dividend_sheet]⟩).rate = none
        ∧ ((process_dividend_sheet [⟨⟨2023, 5, 15⟩, 7, 3⟩] []).get
          ⟨0, by norm_num [process_dividend_sheet]⟩).rateDate = none
        ∧ ((process_dividend_sheet [⟨⟨2023, 5, 15⟩, 7, 3⟩] []).get
          ⟨0, by norm_num [process_dividend_sheet]⟩).valueInr = 0
        ∧ ((process_dividend_sheet [⟨⟨2023, 5, 15⟩, 7, 3⟩] []).get
          ⟨0, by norm_num [process_dividend_sheet]⟩).taxInr = 0) :=
  ⟨(c8_missing_rate_handling [⟨⟨2023, 5, 15⟩, 7, 3⟩] []).1,
   (c8_missing_rate_handling [⟨⟨2023, 5, 15⟩, 7, 3⟩] []).2 0
     (by norm_num) (by norm_num [process_dividend_sheet]) rfl⟩

/-- Claim C9: the store-level matcher never modifies the slot holding the
caller's buy table — all `Shares Remaining` bookkeeping happens in the
freshly allocated copy — so the caller's table after the call equals its
value before the call. -/
theorem c9_buy_table_unmodified (store : List DfVal) (buyRef : ℕ)
    (sales : List ValuedEquityRow) (h : buyRef < store.length) :
    (match_sales_to_purchases_store store buyRef sales).1.getD buyRef
        (DfVal.raw [])
      = store.getD buyRef (DfVal.raw []) := by
  unfold match_sales_to_purchases_store
  have key : ∀ (ss : List ValuedEquityRow)
      (acc : List DfVal × List MatchedGain × List (ℤ × ℚ)),
      acc.1.getD buyRef (DfVal.raw []) = store.getD buyRef (DfVal.raw []) →
      (ss.foldl (storeStep store.length) acc).1.getD buyRef (DfVal.raw [])
        = store.getD buyRef (DfVal.raw []) := by
    intro ss
    induction ss with
    | nil => intro acc hacc; exact hacc
    | cons s ss2 ih =>
      intro acc hacc
      rw [List.foldl_cons]
      apply ih
      show (acc.1.set store.length _).getD buyRef (DfVal.raw [])
          = store.getD buyRef (DfVal.raw [])
      rw [List.getD_eq_getElem?_getD, List.getElem?_set_ne (by omega),
        ← List.getD_eq_getElem?_getD]
      exact hacc
  apply key
  show (store ++ [DfVal.lots (seedLots (rawAt store buyRef))]).getD buyRef
      (DfVal.raw []) = store.getD buyRef (DfVal.raw [])
  rw [List.getD_eq_getElem?_getD, List.getElem?_append_left h,
    ← List.getD_eq_getElem?_getD]

/-- Witness for C9: a one-table store with a concrete buy table and one
sale; slot 0 is unchanged by the call. -/
theorem c9_buy_table_unmodified_witness :
    (match_sales_to_purchases_store [DfVal.raw [mkValuedRow 0 10 5]] 0
        [mkValuedRow 1440 20 5]).1.getD 0 (DfVal.raw [])
      = [DfVal.raw [mkValuedRow 0 10 5]].getD 0 (DfVal.raw []) :=
  c9_buy_table_unmodified [DfVal.raw [mkValuedRow 0 10 5]] 0
    [mkValuedRow 1440 20 5] (by norm_num)

theorem mkTimelineEntry_combinedInr (rates_df : List RateEntry) (d : ℤ)
    (e r : ℚ) :
    (mkTimelineEntry rates_df d e r).combinedInr
      = truthyMulInr (e + r) (get_exchange_rate d rates_df) := rfl

theorem mkTimelineEntry_date (rates_df : List RateEntry) (d : ℤ) (e r : ℚ) :
    (mkTimelineEntry rates_df d e r).date = d := rfl

theorem foldl_max_mem :
    ∀ (t : List TimelineEntry) (h : TimelineEntry),
      t.foldl (fun best e =>
          if best.combinedInr < e.combinedInr then e else best) h ∈ h :: t := by
  intro t
  induction t with
  | nil => intro h; simp
  | cons e t2 ih =>
    intro h
    rw [List.foldl_cons]
    rcases List.mem_cons.mp
        (ih (if h.combinedInr < e.combinedInr then e else h)) with heq | hin
    · rw [heq]
      by_cases hcnd : h.combinedInr < e.combinedInr
      · rw [if_pos hcnd]
        exact List.mem_cons_of_mem _ (List.mem_cons_self _ _)
      · rw [if_neg hcnd]
        exact List.mem_cons_self _ _
    · exact List.mem_cons_of_mem _ (List.mem_cons_of_mem _ hin)

theorem foldl_max_ge :
    ∀ (t : List TimelineEntry) (h : TimelineEntry),
      ∀ x ∈ h :: t, x.combinedInr
        ≤ (t.foldl (fun best e =>
            if best.combinedInr < e.combinedInr then e else best) h).combinedInr := by
  intro t
  induction t with
  | nil =>
    intro h x hx
    rw [List.mem_singleton] at hx
    subst hx
    exact le_refl _
  | cons e t2 ih =>
    intro h x hx
    rw [List.foldl_cons]
    have hh : h.combinedInr
        ≤ (if h.combinedInr < e.combinedInr then e else h).combinedInr := by
      by_cases hcnd : h.combinedInr < e.combinedInr
      · rw [if_pos hcnd]; exact le_of_lt hcnd
      · rw [if_neg hcnd]
    have he : e.combinedInr
        ≤ (if h.combinedInr < e.combinedInr then e else h).combinedInr := by
      by_cases hcnd : h.combinedInr < e.combinedInr
      · rw [if_pos hcnd]
      · rw [if_neg hcnd]; exact le_of_not_lt hcnd
    rcases List.mem_cons.mp hx with rfl | hx2
    · exact le_trans hh (ih _ _ (List.mem_cons_self _ _))
    rcases List.mem_cons.mp hx2 with rfl | hx3
    · exact le_trans he (ih _ _ (List.mem_cons_self _ _))
    · exact ih _ x (List.mem_cons_of_mem _ hx3)

theorem maxByInr_mem (h : TimelineEntry) (t : List TimelineEntry) :
    maxByInr h t ∈ h :: t := foldl_max_mem t h

theorem le_maxByInr (h : TimelineEntry) (t : List TimelineEntry) :
    ∀ x ∈ h :: t, x.combinedInr ≤ (maxByInr h t).combinedInr :=
  foldl_max_ge t h

/-- The opening snapshot fields of the row loop are those of the last
opening-tagged row (a fold over the opening rows). -/
theorem cashState_opening_aux (rates_df : List RateEntry) :
    ∀ (rows : List CashRow) (st : CashState),
      ((rows.foldl (cashStep rates_df) st).openingDate,
       (rows.foldl (cashStep rates_df) st).openingEspp,
       (rows.foldl (cashStep rates_df) st).openingRsu)
        = (rows.filter (fun r => decide (r.typ = CashRowType.opening))).foldl
            (fun _ r => (some r.date, r.espp, r.rsu))
            (st.openingDate, st.openingEspp, st.openingRsu) := by
  intro rows
  induction rows with
  | nil => intro st; simp
  | cons r rows2 ih =>
    intro st
    rw [List.foldl_cons, ih, List.filter_cons]
    cases htyp : r.typ <;>
      simp [cashStep, htyp]

/-- The closing snapshot fields of the row loop are those of the last
closing-tagged row. -/
theorem cashState_closing_aux (rates_df : List RateEntry) :
    ∀ (rows : List CashRow) (st : CashState),
      ((rows.foldl (cashStep rates_df) st).closingDate,
       (rows.foldl (cashStep rates_df) st).closingEspp,
       (rows.foldl (cashStep rates_df) st).closingRsu)
        = (rows.filter (fun r => decide (r.typ = CashRowType.closing))).foldl
            (fun _ r => (some r.date, r.espp, r.rsu))
            (st.closingDate, st.closingEspp, st.closingRsu) := by
  intro rows
  induction rows with
  | nil => intro st; simp
  | cons r rows2 ih =>
    intro st
    rw [List.foldl_cons, ih, List.filter_cons]
    cases htyp : r.typ <;>
      simp [cashStep, htyp]

/-- The collected cash transactions of the row loop are exactly the
cash-tagged rows, in input order. -/
theorem cashState_cashTransactions_aux (rates_df : List RateEntry) :
    ∀ (rows : List CashRow) (st : CashState),
      (rows.foldl (cashStep rates_df) st).cashTransactions
        = st.cashTransactions
          ++ (rows.filter (fun r => decide (r.typ = CashRowType.cash))).map
              (fun r => (⟨r.date, r.espp, r.rsu⟩ : CashTx)) := by
  intro rows
  induction rows with
  | nil => intro st; simp
  | cons r rows2 ih =>
    intro st
    rw [List.foldl_cons, ih, List.filter_cons]
    cases htyp : r.typ <;>
      simp [cashStep, htyp]

theorem foldl_last_snapshot_isSome :
    ∀ (l : List CashRow) (acc : Option ℤ × ℚ × ℚ), l ≠ [] →
      ((l.foldl (fun _ r => (some r.date, r.espp, r.rsu)) acc).1).isSome
        = true := by
  intro l
  induction l with
  | nil => intro acc hne; exact absurd rfl hne
  | cons r l2 ih =>
    intro acc _
    rw [List.foldl_cons]
    by_cases h2 : l2 = []
    · subst h2; simp
    · exact ih _ h2

theorem cashState_openingDate_isSome (rows : List CashRow)
    (rates_df : List RateEntry)
    (ho : ∃ r ∈ rows, r.typ = CashRowType.opening) :
    ((cashState rows rates_df).openingDate).isSome = true := by
  obtain ⟨r, hr, htyp⟩ := ho
  have hmem : r ∈ rows.filter (fun r => decide (r.typ = CashRowType.opening)) :=
    List.mem_filter.mpr ⟨hr, by simpa using htyp⟩
  have hne : rows.filter (fun r => decide (r.typ = CashRowType.opening)) ≠ [] :=
    List.ne_nil_of_mem hmem
  have := congrArg Prod.fst (cashState_opening_aux rates_df rows {})
  unfold cashState
  simp only at this
  rw [this]
  exact foldl_last_snapshot_isSome _ _ hne

theorem cashState_closingDate_isSome (rows : List CashRow)
    (rates_df : List RateEntry)
    (hc : ∃ r ∈ rows, r.typ = CashRowType.closing) :
    ((cashState rows rates_df).closingDate).isSome = true := by
  obtain ⟨r, hr, htyp⟩ := hc
  have hmem : r ∈ rows.filter (fun r => decide (r.typ = CashRowType.closing)) :=
    List.mem_filter.mpr ⟨hr, by simpa using htyp⟩
  have hne : rows.filter (fun r => decide (r.typ = CashRowType.closing)) ≠ [] :=
    List.ne_nil_of_mem hmem
  have := congrArg Prod.fst (cashState_closing_aux rates_df rows {})
  unfold cashState
  simp only at this
  rw [this]
  exact foldl_last_snapshot_isSome _ _ hne

theorem snapshotInr_some (rates_df : List RateEntry) (d : ℤ) (usd : ℚ) :
    snapshotInr rates_df (some d) usd
      = truthyMulInr usd (get_exchange_rate d rates_df) := rfl

/-- The peak section on present opening/closing snapshots: the timeline is
nonempty, the reported entry is a member and maximal in INR value, and it
dominates the opening and closing snapshot conversions. -/
theorem cashPeak_spec (rates_df : List RateEntry) (od cd : ℤ)
    (oe orr ce cr : ℚ) (txs : List CashTx) :
    ∃ h t, cashTimeline rates_df od oe orr txs cd ce cr = h :: t
      ∧ maxByInr h t ∈ h :: t
      ∧ (∀ e ∈ h :: t, e.combinedInr ≤ (maxByInr h t).combinedInr)
      ∧ cashPeak rates_df (some od) (some cd) oe orr ce cr txs
          = (some (maxByInr h t).date, (maxByInr h t).combinedUsd,
             (maxByInr h t).combinedInr)
      ∧ truthyMulInr (oe + orr) (get_exchange_rate od rates_df)
          ≤ (maxByInr h t).combinedInr
      ∧ truthyMulInr (ce + cr) (get_exchange_rate cd rates_df)
          ≤ (maxByInr h t).combinedInr := by
  refine ⟨mkTimelineEntry rates_df od oe orr,
    cashCumTimeline rates_df (oe, orr) txs
      ++ [mkTimelineEntry rates_df cd ce cr],
    rfl, maxByInr_mem _ _, le_maxByInr _ _, rfl, ?_, ?_⟩
  · have := le_maxByInr (mkTimelineEntry rates_df od oe orr)
      (cashCumTimeline rates_df (oe, orr) txs
        ++ [mkTimelineEntry rates_df cd ce cr])
      (mkTimelineEntry rates_df od oe orr) (List.mem_cons_self _ _)
    simpa [mkTimelineEntry_combinedInr] using this
  · have hm : mkTimelineEntry rates_df cd ce cr
        ∈ mkTimelineEntry rates_df od oe orr
          :: (cashCumTimeline rates_df (oe, orr) txs
              ++ [mkTimelineEntry rates_df cd ce cr]) :=
      List.mem_cons_of_mem _
        (List.mem_append_right _ (List.mem_singleton.mpr rfl))
    have := le_maxByInr (mkTimelineEntry rates_df od oe orr)
      (cashCumTimeline rates_df (oe, orr) txs
        ++ [mkTimelineEntry rates_df cd ce cr])
      (mkTimelineEntry rates_df cd ce cr) hm
    simpa [mkTimelineEntry_combinedInr] using this

/-- Claim C5: when the Cash sheet contains an opening row and a closing
row, the reported peak combined INR value dominates both the opening and
the closing snapshot INR values (each converted at its own date's rate),
and the peak is the maximal-INR snapshot of the timeline made of the
opening, the cumulative sorted cash transactions, and the closing. -/
theorem c5_peak_dominates (rows : List CashRow) (rates_df : List RateEntry)
    (ho : ∃ r ∈ rows, r.typ = CashRowType.opening)
    (hc : ∃ r ∈ rows, r.typ = CashRowType.closing) :
    (process_cash_sheet rows rates_df).2.openingCombinedInr
        ≤ (process_cash_sheet rows rates_df).2.peakCombinedInr
    ∧ (process_cash_sheet rows rates_df).2.closingCombinedInr
        ≤ (process_cash_sheet rows rates_df).2.peakCombinedInr
    ∧ ∃ od cd,
        (cashState rows rates_df).openingDate = some od
        ∧ (cashState rows rates_df).closingDate = some cd
        ∧ ∃ h t,
            cashTimeline rates_df od (cashState rows rates_df).openingEspp
                (cashState rows rates_df).openingRsu
                (sortCashTxs (cashState rows rates_df).cashTransactions) cd
                (cashState rows rates_df).closingEspp
                (cashState rows rates_df).closingRsu
              = h :: t
            ∧ maxByInr h t ∈ h :: t
            ∧ (∀ e ∈ h :: t, e.combinedInr ≤ (maxByInr h t).combinedInr)
            ∧ (process_cash_sheet rows rates_df).2.peakDate
                = some (maxByInr h t).date
            ∧ (process_cash_sheet rows rates_df).2.peakCombinedUsd
                = round2 (maxByInr h t).combinedUsd
            ∧ (process_cash_sheet rows rates_df).2.peakCombinedInr
                = round2 (maxByInr h t).combinedInr := by
  obtain ⟨od, hod⟩ := Option.isSome_iff_exists.mp
    (cashState_openingDate_isSome rows rates_df ho)
  obtain ⟨cd, hcd⟩ := Option.isSome_iff_exists.mp
    (cashState_closingDate_isSome rows rates_df hc)
  obtain ⟨h, t, htl, hmem, hle, hpeak, hob, hcb⟩ :=
    cashPeak_spec rates_df od cd (cashState rows rates_df).openingEspp
      (cashState rows rates_df).openingRsu
      (cashState rows rates_df).closingEspp
      (cashState rows rates_df).closingRsu
      (sortCashTxs (cashState rows rates_df).cashTransactions)
  simp only [process_cash_sheet, hod, hcd, snapshotInr_some, hpeak]
  refine ⟨round2_mono hob, round2_mono hcb,
    od, cd, rfl, rfl, h, t, htl, hmem, hle, rfl, rfl, rfl⟩

/-- Witness for C5: a three-row Cash sheet (opening, one cash transaction,
closing) against a one-entry rate table. -/
theorem c5_peak_dominates_witness :
    (process_cash_sheet
        [⟨0, CashRowType.opening, 10, 5⟩, ⟨1440, CashRowType.cash, 3, 0⟩,
         ⟨2880, CashRowType.closing, 20, 1⟩]
        [⟨0, 80⟩]).2.openingCombinedInr
      ≤ (process_cash_sheet
        [⟨0, CashRowType.opening, 10, 5⟩, ⟨1440, CashRowType.cash, 3, 0⟩,
         ⟨2880, CashRowType.closing, 20, 1⟩]
        [⟨0, 80⟩]).2.peakCombinedInr
    ∧ (process_cash_sheet
        [⟨0, CashRowType.opening, 10, 5⟩, ⟨1440, CashRowType.cash, 3, 0⟩,
         ⟨2880, CashRowType.closing, 20, 1⟩]
        [⟨0, 80⟩]).2.closingCombinedInr
      ≤ (process_cash_sheet
        [⟨0, CashRowType.opening, 10, 5⟩, ⟨1440, CashRowType.cash, 3, 0⟩,
         ⟨2880, CashRowType.closing, 20, 1⟩]
        [⟨0, 80⟩]).2.peakCombinedInr
    ∧ ∃ od cd,
        (cashState
          [⟨0, CashRowType.opening, 10, 5⟩, ⟨1440, CashRowType.cash, 3, 0⟩,
           ⟨2880, CashRowType.closing, 20, 1⟩] [⟨0, 80⟩]).openingDate = some od
        ∧ (cashState
          [⟨0, CashRowType.opening, 10, 5⟩, ⟨1440, CashRowType.cash, 3, 0⟩,
           ⟨2880, CashRowType.closing, 20, 1⟩] [⟨0, 80⟩]).closingDate = some cd
        ∧ ∃ h t,
            cashTimeline [⟨0, 80⟩] od
                (cashState
                  [⟨0, CashRowType.opening, 10, 5⟩,
                   ⟨1440, CashRowType.cash, 3, 0⟩,
                   ⟨2880, CashRowType.closing, 20, 1⟩] [⟨0, 80⟩]).openingEspp
                (cashState
                  [⟨0, CashRowType.opening, 10, 5⟩,
                   ⟨1440, CashRowType.cash, 3, 0⟩,
                   ⟨2880, CashRowType.closing, 20, 1⟩] [⟨0, 80⟩]).openingRsu
                (sortCashTxs (cashState
                  [⟨0, CashRowType.opening, 10, 5⟩,
                   ⟨1440, CashRowType.cash, 3, 0⟩,
                   ⟨2880, CashRowType.closing, 20, 1⟩]
                  [⟨0, 80⟩]).cashTransactions) cd
                (cashState
                  [⟨0, CashRowType.opening, 10, 5⟩,
                   ⟨1440, CashRowType.cash, 3, 0⟩,
                   ⟨2880, CashRowType.closing, 20, 1⟩] [⟨0, 80⟩]).closingEspp
                (cashState
                  [⟨0, CashRowType.opening, 10, 5⟩,
                   ⟨1440, CashRowType.cash, 3, 0⟩,
                   ⟨2880, CashRowType.closing, 20, 1⟩] [⟨0, 80⟩]).closingRsu
              = h :: t
            ∧ maxByInr h t ∈ h :: t
            ∧ (∀ e ∈ h :: t, e.combinedInr ≤ (maxByInr h t).combinedInr)
            ∧ (process_cash_sheet
                [⟨0, CashRowType.opening, 10, 5⟩, ⟨1440, CashRowType.cash, 3, 0⟩,
                 ⟨2880, CashRowType.closing, 20, 1⟩]
                [⟨0, 80⟩]).2.peakDate = some (maxByInr h t).date
            ∧ (process_cash_sheet
                [⟨0, CashRowType.opening, 10, 5⟩, ⟨1440, CashRowType.cash, 3, 0⟩,
                 ⟨2880, CashRowType.closing, 20, 1⟩]
                [⟨0, 80⟩]).2.peakCombinedUsd = round2 (maxByInr h t).combinedUsd
            ∧ (process_cash_sheet
                [⟨0, CashRowType.opening, 10, 5⟩, ⟨1440, CashRowType.cash, 3, 0⟩,
                 ⟨2880, CashRowType.closing, 20, 1⟩]
                [⟨0, 80⟩]).2.peakCombinedInr
              = round2 (maxByInr h t).combinedInr :=
  c5_peak_dominates
    [⟨0, CashRowType.opening, 10, 5⟩, ⟨1440, CashRowType.cash, 3, 0⟩,
     ⟨2880, CashRowType.closing, 20, 1⟩] [⟨0, 80⟩]
    ⟨⟨0, CashRowType.opening, 10, 5⟩, List.mem_cons_self _ _, rfl⟩
    ⟨⟨2880, CashRowType.closing, 20, 1⟩, by simp, rfl⟩

/-- Two mutually permuted lists that are both sorted by date and have
pairwise distinct dates are equal. -/
theorem sorted_eq_of_perm_nodup :
    ∀ (a b : List CashTx), a.Perm b →
      a.Pairwise (fun x y => x.date ≤ y.date) →
      b.Pairwise (fun x y => x.date ≤ y.date) →
      (a.map CashTx.date).Nodup → a = b := by
  intro a
  induction a with
  | nil =>
    intro b hab _ _ _
    exact hab.nil_eq
  | cons x a2 ih =>
    intro b hab ha hb hnd
    cases b with
    | nil => exact absurd hab.eq_nil (by simp)
    | cons y b2 =>
      have hnd2 := hnd
      rw [List.map_cons, List.nodup_cons] at hnd2
      have hxy : x = y := by
        have hxb := hab.mem_iff.mp (List.mem_cons_self x a2)
        have hyb := hab.mem_iff.mpr (List.mem_cons_self y b2)
        rcases List.mem_cons.mp hxb with h1 | h1
        · exact h1
        · rcases List.mem_cons.mp hyb with h2 | h2
          · exact h2.symm
          · have hle1 : x.date ≤ y.date := (List.pairwise_cons.mp ha).1 y h2
            have hle2 : y.date ≤ x.date := (List.pairwise_cons.mp hb).1 x h1
            have heqd : x.date = y.date := le_antisymm hle1 hle2
            have hmemd : x.date ∈ a2.map CashTx.date :=
              heqd ▸ List.mem_map_of_mem _ h2
            exact absurd hmemd hnd2.1
      subst hxy
      have hperm2 : a2.Perm b2 := hab.cons_inv
      rw [ih b2 hperm2 (List.pairwise_cons.mp ha).2
        (List.pairwise_cons.mp hb).2 hnd2.2]

/-- With pairwise distinct dates, sorting by date is invariant under
permutation of the input. -/
theorem sortCashTxs_eq_of_perm (l1 l2 : List CashTx) (hp : l1.Perm l2)
    (hnd : (l1.map CashTx.date).Nodup) :
    sortCashTxs l1 = sortCashTxs l2 := by
  have htrans : ∀ (a b c : CashTx),
      decide (a.date ≤ b.date) = true → decide (b.date ≤ c.date) = true →
      decide (a.date ≤ c.date) = true := by
    intro a b c h1 h2
    simp only [decide_eq_true_eq] at h1 h2 ⊢
    omega
  have htotal : ∀ (a b : CashTx),
      (decide (a.date ≤ b.date) || decide (b.date ≤ a.date)) = true := by
    intro a b
    simp only [Bool.or_eq_true, decide_eq_true_eq]
    omega
  have hs1 : (sortCashTxs l1).Pairwise (fun x y => x.date ≤ y.date) :=
    (@List.sorted_mergeSort CashTx (fun a b => decide (a.date ≤ b.date))
      htrans htotal l1).imp (fun h => by simpa using h)
  have hs2 : (sortCashTxs l2).Pairwise (fun x y => x.date ≤ y.date) :=
    (@List.sorted_mergeSort CashTx (fun a b => decide (a.date ≤ b.date))
      htrans htotal l2).imp (fun h => by simpa using h)
  have hpp : (sortCashTxs l1).Perm (sortCashTxs l2) :=
    ((List.mergeSort_perm l1 _).trans hp).trans (List.mergeSort_perm l2 _).symm
  have hndm : ((sortCashTxs l1).map CashTx.date).Nodup :=
    (((List.mergeSort_perm l1
      (fun a b => decide (a.date ≤ b.date))).map CashTx.date).nodup_iff).mpr hnd
  exact sorted_eq_of_perm_nodup _ _ hpp hs1 hs2 hndm

theorem filter_opening_of_filter_noncash (rows : List CashRow) :
    rows.filter (fun r => decide (r.typ = CashRowType.opening))
      = (rows.filter (fun r => decide (r.typ ≠ CashRowType.cash))).filter
          (fun r => decide (r.typ = CashRowType.opening)) := by
  rw [List.filter_filter]
  apply List.filter_congr
  intro x _
  cases hx : x.typ <;> simp [hx]

theorem filter_closing_of_filter_noncash (rows : List CashRow) :
    rows.filter (fun r => decide (r.typ = CashRowType.closing))
      = (rows.filter (fun r => decide (r.typ ≠ CashRowType.cash))).filter
          (fun r => decide (r.typ = CashRowType.closing)) := by
  rw [List.filter_filter]
  apply List.filter_congr
  intro x _
  cases hx : x.typ <;> simp [hx]

/-- Claim C10: when the Cash rows carry pairwise distinct dates, permuting
them among themselves (keeping every non-Cash row fixed) leaves the
reported peak date, peak combined USD value and peak combined INR value
unchanged, because the collected cash transactions are sorted by date
before the balance timeline is replayed. -/
theorem c10_cash_row_permutation (rates_df : List RateEntry)
    (rows1 rows2 : List CashRow)
    (hfix : rows1.filter (fun r => decide (r.typ ≠ CashRowType.cash))
        = rows2.filter (fun r => decide (r.typ ≠ CashRowType.cash)))
    (hperm : (rows1.filter (fun r => decide (r.typ = CashRowType.cash))).Perm
        (rows2.filter (fun r => decide (r.typ = CashRowType.cash))))
    (hnd : ((rows1.filter (fun r => decide (r.typ = CashRowType.cash))).map
        CashRow.date).Nodup) :
    (process_cash_sheet rows1 rates_df).2.peakDate
        = (process_cash_sheet rows2 rates_df).2.peakDate
    ∧ (process_cash_sheet rows1 rates_df).2.peakCombinedUsd
        = (process_cash_sheet rows2 rates_df).2.peakCombinedUsd
    ∧ (process_cash_sheet rows1 rates_df).2.peakCombinedInr
        = (process_cash_sheet rows2 rates_df).2.peakCombinedInr := by
  have hofix : rows1.filter (fun r => decide (r.typ = CashRowType.opening))
      = rows2.filter (fun r => decide (r.typ = CashRowType.opening)) := by
    rw [filter_opening_of_filter_noncash rows1, hfix,
      ← filter_opening_of_filter_noncash rows2]
  have hcfix : rows1.filter (fun r => decide (r.typ = CashRowType.closing))
      = rows2.filter (fun r => decide (r.typ = CashRowType.closing)) := by
    rw [filter_closing_of_filter_noncash rows1, hfix,
      ← filter_closing_of_filter_noncash rows2]
  have hopen : ((cashState rows1 rates_df).openingDate,
      (cashState rows1 rates_df).openingEspp,
      (cashState rows1 rates_df).openingRsu)
      = ((cashState rows2 rates_df).openingDate,
      (cashState rows2 rates_df).openingEspp,
      (cashState rows2 rates_df).openingRsu) := by
    unfold cashState
    rw [cashState_opening_aux, cashState_opening_aux, hofix]
  have hclose : ((cashState rows1 rates_df).closingDate,
      (cashState rows1 rates_df).closingEspp,
      (cashState rows1 rates_df).closingRsu)
      = ((cashState rows2 rates_df).closingDate,
      (cashState rows2 rates_df).closingEspp,
      (cashState rows2 rates_df).closingRsu) := by
    unfold cashState
    rw [cashState_closing_aux, cashState_closing_aux, hcfix]
  have htx1 : (cashState rows1 rates_df).cashTransactions
      = (rows1.filter (fun r => decide (r.typ = CashRowType.cash))).map
          (fun r => (⟨r.date, r.espp, r.rsu⟩ : CashTx)) := by
    unfold cashState
    rw [cashState_cashTransactions_aux]
    rfl
  have htx2 : (cashState rows2 rates_df).cashTransactions
      = (rows2.filter (fun r => decide (r.typ = CashRowType.cash))).map
          (fun r => (⟨r.date, r.espp, r.rsu⟩ : CashTx)) := by
    unfold cashState
    rw [cashState_cashTransactions_aux]
    rfl
  have hsort : sortCashTxs (cashState rows1 rates_df).cashTransactions
      = sortCashTxs (cashState rows2 rates_df).cashTransactions := by
    rw [htx1, htx2]
    apply sortCashTxs_eq_of_perm _ _ (hperm.map _)
    rw [List.map_map]
    exact hnd
  have e1 := congrArg (fun p : Option ℤ × ℚ × ℚ => p.1) hopen
  have e2 := congrArg (fun p : Option ℤ × ℚ × ℚ => p.2.1) hopen
  have e3 := congrArg (fun p : Option ℤ × ℚ × ℚ => p.2.2) hopen
  have e4 := congrArg (fun p : Option ℤ × ℚ × ℚ => p.1) hclose
  have e5 := congrArg (fun p : Option ℤ × ℚ × ℚ => p.2.1) hclose
  have e6 := congrArg (fun p : Option ℤ × ℚ × ℚ => p.2.2) hclose
  simp only at e1 e2 e3 e4 e5 e6
  simp only [process_cash_sheet]
  rw [e1, e2, e3, e4, e5, e6, hsort]
  exact ⟨rfl, rfl, rfl⟩

/-- Witness for C10: swapping the two (distinct-date) Cash rows of a
four-row sheet leaves the reported peak figures unchanged. -/
theorem c10_cash_row_permutation_witness :
    (process_cash_sheet
        [⟨0, CashRowType.opening, 10, 5⟩, ⟨1440, CashRowType.cash, 3, 1⟩,
         ⟨2880, CashRowType.cash, 4, 2⟩, ⟨4320, CashRowType.closing, 20, 6⟩]
        [⟨0, 80⟩]).2.peakDate
      = (process_cash_sheet
        [⟨0, CashRowType.opening, 10, 5⟩, ⟨2880, CashRowType.cash, 4, 2⟩,
         ⟨1440, CashRowType.cash, 3, 1⟩, ⟨4320, CashRowType.closing, 20, 6⟩]
        [⟨0, 80⟩]).2.peakDate
    ∧ (process_cash_sheet
        [⟨0, CashRowType.opening, 10, 5⟩, ⟨1440, CashRowType.cash, 3, 1⟩,
         ⟨2880, CashRowType.cash, 4, 2⟩, ⟨4320, CashRowType.closing, 20, 6⟩]
        [⟨0, 80⟩]).2.peakCombinedUsd
      = (process_cash_sheet
        [⟨0, CashRowType.opening, 10, 5⟩, ⟨2880, CashRowType.cash, 4, 2⟩,
         ⟨1440, CashRowType.cash, 3, 1⟩, ⟨4320, CashRowType.closing, 20, 6⟩]
        [⟨0, 80⟩]).2.peakCombinedUsd
    ∧ (process_cash_sheet
        [⟨0, CashRowType.opening, 10, 5⟩, ⟨1440, CashRowType.cash, 3, 1⟩,
         ⟨2880, CashRowType.cash, 4, 2⟩, ⟨4320, CashRowType.closing, 20, 6⟩]
        [⟨0, 80⟩]).2.peakCombinedInr
      = (process_cash_sheet
        [⟨0, CashRowType.opening, 10, 5⟩, ⟨2880, CashRowType.cash, 4, 2⟩,
         ⟨1440, CashRowType.cash, 3, 1⟩, ⟨4320, CashRowType.closing, 20, 6⟩]
        [⟨0, 80⟩]).2.peakCombinedInr :=
  c10_cash_row_permutation [⟨0, 80⟩]
    [⟨0, CashRowType.opening, 10, 5⟩, ⟨1440, CashRowType.cash, 3, 1⟩,
     ⟨2880, CashRowType.cash, 4, 2⟩, ⟨4320, CashRowType.closing, 20, 6⟩]
    [⟨0, CashRowType.opening, 10, 5⟩, ⟨2880, CashRowType.cash, 4, 2⟩,
     ⟨1440, CashRowType.cash, 3, 1⟩, ⟨4320, CashRowType.closing, 20, 6⟩]
    (by simp [List.filter])
    (by simp only [List.filter_cons, List.filter_nil]
        norm_num
        exact List.Perm.swap _ _ _)
    (by simp [List.filter])
